import Mathlib

/-!
# Identity reconciliation of scan results (`report/report.go`)

A shallow embedding of `EnsureUUIDs`, `getOrCreateServerUUID` and
`cleanForTOMLEncoding` of `src/report/report.go` and of `Distinct` of
`src/util/util.go`, followed by the properties of the identity-assignment loop, of the
format check, of the initial sort, of the cleaning of an entry against the default, of
the snapshot handed to the encoder and of the replacement of the configuration file.

Conventions of the embedding.

* A Go `string` is a Lean `String`; `<` on strings is the lexicographic order.
* A Go map that is not nil is an association list (`GoMap`), read with `mapGet`
  and written with `mapSet`; a map field that may be nil is an `Option (GoMap _)`
  with `none` for nil. A slice field that may be nil is an `Option (List _)`.
* `uuid.GenerateUUID` is an external generator: it is a function `gen : Nat → String`
  giving the string returned by the call number `n`, and the state carries the
  number of calls made so far.
* The global `c.Conf` is passed explicitly (`Config`); its map `Servers` is not nil (the
  configuration has been loaded), since line 111 writes into it.
* The values of the `Optional` settings are strings.
* Two distinct entries of `c.Conf.Servers` do not share a map object; the sharing of the
  map `UUIDs` between the local variable `server` and the stored entry is modelled
  (`Iter.shared`).
* The file system is a map from paths to nodes (`FileSystem`); a call of the operating
  system fails when the state says so or when a flag of `Faults` says so, and a failed
  call changes nothing. The encoder of the TOML library is a function that may fail.
-/

namespace Vuls

/-! ## Go maps -/

/-- A Go `map[string]α` that is not nil. -/
abbrev GoMap (α : Type) := List (String × α)

/-- The read `v, ok := m[k]` of a map that is not nil. -/
def mapGet {α : Type} (m : GoMap α) (k : String) : Option α :=
  match m with
  | [] => none
  | (k', v) :: rest => if k' = k then some v else mapGet rest k

/-- The statement `delete(m, k)`. -/
def mapDelete {α : Type} (m : GoMap α) (k : String) : GoMap α :=
  m.filter (fun p => !(decide (p.1 = k)))

/-- The assignment `m[k] = v`. -/
def mapSet {α : Type} (m : GoMap α) (k : String) (v : α) : GoMap α :=
  (k, v) :: mapDelete m k

/-- The read `v, ok := m[k]` of a map that may be nil: a nil map has no key. -/
def mapGetN {α : Type} (m : Option (GoMap α)) (k : String) : Option α :=
  match m with
  | none => none
  | some kvs => mapGet kvs k

/-- The statement `delete(m, k)` on a map that may be nil (no effect on nil). -/
def mapDeleteN {α : Type} (m : Option (GoMap α)) (k : String) : Option (GoMap α) :=
  m.map (fun kvs => mapDelete kvs k)

/-- The call `reflect.DeepEqual(a, b)` on two maps with string values: both nil, or
both not nil with the same number of keys and the same value under every key. -/
def deepEqualMap (a b : Option (GoMap String)) : Bool :=
  match a, b with
  | none, none => true
  | some x, some y =>
      decide (x.length = y.length) && x.all (fun p => decide (mapGet y p.1 = some p.2))
  | _, _ => false

/-- The call `reflect.DeepEqual(a, b)` on two `[]string`: both nil, or both not nil
with the same elements in the same order. -/
def deepEqualSlice (a b : Option (List String)) : Bool :=
  decide (a = b)

/-! ## The format check `regexp.MatchString(reUUID, id)` -/

/-- One piece `class{times}` of a pattern: a character class and a repetition count. -/
structure Piece where
  accepts : Char → Bool
  times : Nat

/-- The character class `[\da-f]`: an ASCII digit or a letter from `a` to `f`. -/
def hexClass (c : Char) : Bool :=
  (decide ('0' ≤ c) && decide (c ≤ '9')) || (decide ('a' ≤ c) && decide (c ≤ 'f'))

/-- The literal `-` of the pattern. -/
def hyphen (c : Char) : Bool := decide (c = '-')

/-- The constant `reUUID`:
`[\da-f]{8}-[\da-f]{4}-[\da-f]{4}-[\da-f]{4}-[\da-f]{12}`. -/
def reUUID : List Piece :=
  [⟨hexClass, 8⟩, ⟨hyphen, 1⟩, ⟨hexClass, 4⟩, ⟨hyphen, 1⟩, ⟨hexClass, 4⟩, ⟨hyphen, 1⟩,
   ⟨hexClass, 4⟩, ⟨hyphen, 1⟩, ⟨hexClass, 12⟩]

/-- Consume exactly `n` characters of the class `p` from the front of the input. -/
def takeClass (p : Char → Bool) : Nat → List Char → Option (List Char)
  | 0, cs => some cs
  | _ + 1, [] => none
  | n + 1, c :: cs => if p c then takeClass p n cs else none

/-- Match of a pattern at the front of the input. -/
def matchHere : List Piece → List Char → Bool
  | [], _ => true
  | pc :: re, cs =>
      match takeClass pc.accepts pc.times cs with
      | some rest => matchHere re rest
      | none => false

/-- Match of a pattern at some position of the input: the pattern has no anchor. -/
def matchAnywhere (re : List Piece) : List Char → Bool
  | [] => matchHere re []
  | c :: cs => matchHere re (c :: cs) || matchAnywhere re cs

/-- The call `regexp.MatchString(pattern, s)`: whether `s` contains a match of the
pattern. The patterns used compile, so the returned error is always nil. -/
def regexpMatchString (re : List Piece) (s : String) : Bool :=
  matchAnywhere re s.toList

/-! ## Data model -/

/-- Modelled from the spec: `models.Container` is declared outside `src/`; the container
of a scan result has an id and a name, and `EnsureUUIDs` writes its `UUID`. -/
structure Container where
  ContainerID : String
  Name : String
  UUID : String
  deriving DecidableEq, Repr

/-- Modelled from the spec: `models.Image` is declared outside `src/`; the image of a
scan result has a name and a tag. -/
structure Image where
  Name : String
  Tag : String
  deriving DecidableEq, Repr

/-- Modelled from the spec: `models.ScanResult` is declared outside `src/`; it has the
logical server name, the assigned identifier, a container and an image. -/
structure ScanResult where
  ServerName : String
  ServerUUID : String
  Container : Container
  Image : Image
  deriving DecidableEq, Repr

/-- Modelled from the spec: `models.ScanResult.IsContainer` is declared outside `src/`;
the container is optional and a bare host has the empty container id, so a result is a
container result when its container id is not empty. -/
def ScanResult.IsContainer (r : ScanResult) : Bool :=
  decide (0 < r.Container.ContainerID.length)

/-- Modelled from the spec: `models.ScanResult.IsImage` is declared outside `src/`;
the image is optional, so a result is an image result when its image name is not empty. -/
def ScanResult.IsImage (r : ScanResult) : Bool :=
  decide (0 < r.Image.Name.length)

/-- Modelled from the spec: `config.ServerInfo` is declared outside `src/`; the fields are
those read or written by `report.go`: the identifier map `UUIDs`, the inheritable fields
and the key/value settings `Optional`; `Others` stands for all the fields that `report.go`
neither reads nor writes. -/
structure ServerInfo where
  User : String
  Host : String
  Port : String
  KeyPath : String
  ScanMode : Option (List String)
  Type_ : String
  CpeNames : Option (List String)
  OwaspDCXMLPath : String
  IgnoreCves : Option (List String)
  Enablerepo : Option (List String)
  Optional : Option (GoMap String)
  UUIDs : Option (GoMap String)
  Others : String
  deriving DecidableEq, Repr

/-- The zero value of `ServerInfo`, returned by the read of a missing key of
`c.Conf.Servers`. -/
def ServerInfo.zero : ServerInfo :=
  { User := "", Host := "", Port := "", KeyPath := "", ScanMode := none, Type_ := "",
    CpeNames := none, OwaspDCXMLPath := "", IgnoreCves := none, Enablerepo := none,
    Optional := none, UUIDs := none, Others := "" }

/-- The part of the global `c.Conf` used by the identity assignment: the default entry
and the entries of the servers, in a map that is not nil. -/
structure Config where
  Default : ServerInfo
  Servers : GoMap ServerInfo
  deriving DecidableEq, Repr

/-! ## `cleanForTOMLEncoding` -/

/-- One iteration of the loop `for k, v := range def.Optional` of `cleanForTOMLEncoding`. -/
def cleanOptionalKey (server : ServerInfo) (kv : String × String) : ServerInfo :=
  match mapGetN server.Optional kv.1 with
  | some vv => if kv.2 = vv then { server with Optional := mapDeleteN server.Optional kv.1 }
               else server
  | none => server

/-- Lines 246-248: `Optional` is set to nil when deep-equal to the default's. -/
def clearOptional (defaults server : ServerInfo) : ServerInfo :=
  if deepEqualMap server.Optional defaults.Optional then { server with Optional := none }
  else server

/-- Lines 250-252. -/
def clearUser (defaults server : ServerInfo) : ServerInfo :=
  if defaults.User = server.User then { server with User := "" } else server

/-- Lines 254-256. -/
def clearHost (defaults server : ServerInfo) : ServerInfo :=
  if defaults.Host = server.Host then { server with Host := "" } else server

/-- Lines 258-260. -/
def clearPort (defaults server : ServerInfo) : ServerInfo :=
  if defaults.Port = server.Port then { server with Port := "" } else server

/-- Lines 262-264. -/
def clearKeyPath (defaults server : ServerInfo) : ServerInfo :=
  if defaults.KeyPath = server.KeyPath then { server with KeyPath := "" } else server

/-- Lines 266-268. -/
def clearScanMode (defaults server : ServerInfo) : ServerInfo :=
  if deepEqualSlice server.ScanMode defaults.ScanMode then { server with ScanMode := none }
  else server

/-- Lines 270-272. -/
def clearType (defaults server : ServerInfo) : ServerInfo :=
  if defaults.Type_ = server.Type_ then { server with Type_ := "" } else server

/-- Lines 274-276. -/
def clearCpeNames (defaults server : ServerInfo) : ServerInfo :=
  if deepEqualSlice server.CpeNames defaults.CpeNames then { server with CpeNames := none }
  else server

/-- Lines 278-280. -/
def clearOwaspDCXMLPath (defaults server : ServerInfo) : ServerInfo :=
  if defaults.OwaspDCXMLPath = server.OwaspDCXMLPath then { server with OwaspDCXMLPath := "" }
  else server

/-- Lines 282-284. -/
def clearIgnoreCves (defaults server : ServerInfo) : ServerInfo :=
  if deepEqualSlice server.IgnoreCves defaults.IgnoreCves then { server with IgnoreCves := none }
  else server

/-- Lines 286-288. -/
def clearEnablerepo (defaults server : ServerInfo) : ServerInfo :=
  if deepEqualSlice server.Enablerepo defaults.Enablerepo then { server with Enablerepo := none }
  else server

/-- Lines 290-294: the loop `for k, v := range def.Optional`. -/
def cleanOptionalKeys (defaults server : ServerInfo) : ServerInfo :=
  (defaults.Optional.getD []).foldl cleanOptionalKey server

/-- The function `cleanForTOMLEncoding(server, def)`: its statements in order, each
applied to the entry left by the previous one. -/
def cleanForTOMLEncoding (server defaults : ServerInfo) : ServerInfo :=
  cleanOptionalKeys defaults
    (clearEnablerepo defaults
      (clearIgnoreCves defaults
        (clearOwaspDCXMLPath defaults
          (clearCpeNames defaults
            (clearType defaults
              (clearScanMode defaults
                (clearKeyPath defaults
                  (clearPort defaults
                    (clearHost defaults
                      (clearUser defaults
                        (clearOptional defaults server)))))))))))

/-! ## `getOrCreateServerUUID` and the loop of `EnsureUUIDs` -/

/-- The function `getOrCreateServerUUID(r, server)`, with the number of generator calls
made before and after: the result is a fresh identifier when the bare server name has no
stored identifier or a stored identifier that fails the format check, and the empty
string otherwise. -/
def getOrCreateServerUUID (gen : Nat → String) (calls : Nat) (r : ScanResult)
    (server : ServerInfo) : String × Nat :=
  match mapGetN server.UUIDs r.ServerName with
  | none => (gen calls, calls + 1)
  | some id =>
      if !(regexpMatchString reUUID id) then (gen calls, calls + 1) else ("", calls)

/-- The state between two iterations of the loop: the configuration `c.Conf` and the
number of calls of `uuid.GenerateUUID` made so far. -/
structure Env where
  Conf : Config
  calls : Nat
  deriving DecidableEq, Repr

/-- The state inside one iteration: the configuration, the number of generator calls,
the local variable `server`, and whether the map `server.UUIDs` is the map object held
by the entry `c.Conf.Servers[r.ServerName]` (a write to a shared map is seen through the
configuration at once; a map created by the iteration is seen only once `server` is
stored). -/
structure Iter where
  Conf : Config
  calls : Nat
  server : ServerInfo
  shared : Bool
  deriving DecidableEq, Repr

/-- Lines 71-74: `server := c.Conf.Servers[r.ServerName]`, then a fresh empty map when
`server.UUIDs` is nil. -/
def enterIter (env : Env) (r : ScanResult) : Iter :=
  let server := (mapGet env.Conf.Servers r.ServerName).getD ServerInfo.zero
  match server.UUIDs with
  | none => ⟨env.Conf, env.calls, { server with UUIDs := some [] }, false⟩
  | some _ => ⟨env.Conf, env.calls, server, true⟩

/-- The assignment `server.UUIDs[k] = v` inside the iteration for the server `sn`: the
local `server` sees it, and so does the stored entry when the map is shared. -/
def assignUUID (it : Iter) (sn k v : String) : Iter :=
  let uuids := some (mapSet (it.server.UUIDs.getD []) k v)
  let conf :=
    if it.shared then
      match mapGet it.Conf.Servers sn with
      | some stored =>
          { it.Conf with Servers := mapSet it.Conf.Servers sn { stored with UUIDs := uuids } }
      | none => it.Conf
    else it.Conf
  ⟨conf, it.calls, { it.server with UUIDs := uuids }, it.shared⟩

/-- Lines 79-81 and 84-86: `if uuid := getOrCreateServerUUID(r, server); uuid != ""` then
`server.UUIDs[r.ServerName] = uuid`. -/
def ensureHost (gen : Nat → String) (r : ScanResult) (it : Iter) : Iter :=
  let res := getOrCreateServerUUID gen it.calls r it.server
  let it1 : Iter := { it with calls := res.2 }
  if res.1 ≠ "" then assignUUID it1 r.ServerName r.ServerName res.1 else it1

/-- The value of `name` after lines 76-89: the identity key of the result. -/
def identityKey (r : ScanResult) : String :=
  if r.IsContainer then r.Container.Name ++ "@" ++ r.ServerName
  else if r.IsImage then r.Image.Name ++ ":" ++ r.Image.Tag ++ "@" ++ r.ServerName
  else r.ServerName

/-- Lines 96-101 and 113-118: the identifier `id` is written onto the result; a
container result also receives `server.UUIDs[r.ServerName]` as `ServerUUID`. -/
def writeResult (r : ScanResult) (server : ServerInfo) (id : String) : ScanResult :=
  if r.IsContainer then
    { r with Container := { r.Container with UUID := id },
             ServerUUID := (mapGetN server.UUIDs r.ServerName).getD "" }
  else { r with ServerUUID := id }

/-- Lines 107-118: a new identifier is generated, stored under `name`, the entry is
cleaned and stored in the configuration, and the result is written. -/
def assignFresh (gen : Nat → String) (r : ScanResult) (name : String) (it : Iter) :
    Env × ScanResult :=
  let id := gen it.calls
  let it1 := assignUUID it r.ServerName name id
  let server := cleanForTOMLEncoding it1.server it1.Conf.Default
  (⟨{ it1.Conf with Servers := mapSet it1.Conf.Servers r.ServerName server }, it.calls + 1⟩,
    writeResult r server id)

/-- The body of the loop `for i, r := range results` (lines 70-119) for one result. -/
def ensureResult (gen : Nat → String) (env : Env) (r : ScanResult) : Env × ScanResult :=
  let it0 := enterIter env r
  let it1 :=
    if r.IsContainer then ensureHost gen r it0
    else if r.IsImage then ensureHost gen r it0
    else it0
  let name := identityKey r
  match mapGetN it1.server.UUIDs name with
  | some id =>
      if regexpMatchString reUUID id then (⟨it1.Conf, it1.calls⟩, writeResult r it1.server id)
      else assignFresh gen r name it1
  | none => assignFresh gen r name it1

/-- The loop `for i, r := range results` (lines 70-119): the results are processed in
order, each against the configuration left by the previous ones. -/
def ensureLoop (gen : Nat → String) : Env → List ScanResult → Env × List ScanResult
  | env, [] => (env, [])
  | env, r :: rs =>
      let step := ensureResult gen env r
      let tail := ensureLoop gen step.1 rs
      (tail.1, step.2 :: tail.2)

/-! ## Reading the configuration -/

/-- The map `c.Conf.Servers[sn].UUIDs` (nil when the server has no entry). -/
def storedUUIDs (conf : Config) (sn : String) : Option (GoMap String) :=
  ((mapGet conf.Servers sn).getD ServerInfo.zero).UUIDs

/-- The read `id, ok := c.Conf.Servers[sn].UUIDs[k]`. -/
def lookupUUID (conf : Config) (sn k : String) : Option String :=
  mapGetN (storedUUIDs conf sn) k

/-- The format check of lines 51-52 and 92-93: `matched` of
`regexp.MatchString(reUUID, id)`. -/
def validUUID (id : String) : Bool := regexpMatchString reUUID id

/-- The identifier of the target of a result: `Container.UUID` for a container result,
`ServerUUID` for a host or image result. -/
def ownUUID (r : ScanResult) : String :=
  if r.IsContainer then r.Container.UUID else r.ServerUUID

/-! ## The canonical identifier format, as the specification words it -/

/-- A lower-case hex digit: `0` to `9` or `a` to `f`. -/
def isLowerHexDigit (c : Char) : Bool :=
  c.isDigit || (decide ('a' ≤ c) && decide (c ≤ 'f'))

/-- A hex digit in either case: `0` to `9`, `a` to `f` or `A` to `F`. -/
def isHexDigit (c : Char) : Bool :=
  c.isDigit || (decide ('a' ≤ c) && decide (c ≤ 'f')) || (decide ('A' ≤ c) && decide (c ≤ 'F'))

/-- The characters of `cs` from position `start`, `len` of them. -/
def slice (cs : List Char) (start len : Nat) : List Char := (cs.drop start).take len

/-- The whole of `cs` is 32 digits grouped 8-4-4-4-12 and separated by hyphens: 36
characters, a hyphen at the positions 8, 13, 18 and 23, a digit everywhere else. -/
def hasUUIDShape (digit : Char → Bool) (cs : List Char) : Bool :=
  decide (cs.length = 36) &&
  (slice cs 0 8).all digit && decide (slice cs 8 1 = ['-']) &&
  (slice cs 9 4).all digit && decide (slice cs 13 1 = ['-']) &&
  (slice cs 14 4).all digit && decide (slice cs 18 1 = ['-']) &&
  (slice cs 19 4).all digit && decide (slice cs 23 1 = ['-']) &&
  (slice cs 24 12).all digit

/-- The canonical form of the identifier generator: the whole string is 32 lower-case hex
digits grouped 8-4-4-4-12. -/
def isCanonical (s : String) : Bool := hasUUIDShape isLowerHexDigit s.toList

/-- The canonical identifier format with hex digits in either case: the whole string is
32 hex digits grouped 8-4-4-4-12. -/
def isCanonicalAnyCase (s : String) : Bool := hasUUIDShape isHexDigit s.toList

/-! ## The sort at the start of `EnsureUUIDs` -/

/-- The lexicographic order on the characters of two strings. -/
def charsLess : List Char → List Char → Bool
  | _, [] => false
  | [], _ :: _ => true
  | a :: as, b :: bs =>
      if a < b then true else if a = b then charsLess as bs else false

/-- The comparison `a < b` of two Go strings: the lexicographic order. -/
def stringLess (a b : String) : Bool := charsLess a.toList b.toList

/-- The comparator of lines 63-68: `results[i]` is before `results[j]` when its
`ServerName` is smaller or, for equal `ServerName`, its `Container.ContainerID` is
smaller. -/
def lessResults (a b : ScanResult) : Bool :=
  if a.ServerName = b.ServerName then
    stringLess a.Container.ContainerID b.Container.ContainerID
  else stringLess a.ServerName b.ServerName

/-- The relation "`b` is not before `a`" that `sort.Slice` establishes between
neighbours. -/
def notAfter (a b : ScanResult) : Prop := lessResults b a = false

/-- The possible outcomes of `sort.Slice(results, less)` of the Go library, which is not
stable: a permutation of the input in which no element is before its predecessor. -/
def IsSortSliceOutput (input output : List ScanResult) : Prop :=
  output.Perm input ∧ List.Chain' notAfter output

/-- One outcome of the sort, by insertion. -/
def sortSlice (input : List ScanResult) : List ScanResult :=
  List.insertionSort (fun a b => lessResults b a = false) input

/-- The sort key of a result: its `ServerName` and its `Container.ContainerID`. -/
def sortKey (r : ScanResult) : String × String := (r.ServerName, r.Container.ContainerID)

/-! ## Sample inputs -/

/-- A bare host result of the server `sn`, before identity assignment. -/
def hostResult (sn : String) : ScanResult := ⟨sn, "", ⟨"", "", ""⟩, ⟨"", ""⟩⟩

/-- A container result of the server `sn`, before identity assignment. -/
def containerResult (sn cid cname : String) : ScanResult :=
  ⟨sn, "", ⟨cid, cname, ""⟩, ⟨"", ""⟩⟩

/-- An image result of the server `sn`, before identity assignment. -/
def imageResult (sn name tag : String) : ScanResult := ⟨sn, "", ⟨"", "", ""⟩, ⟨name, tag⟩⟩

/-- A canonical identifier. -/
def uuidA : String := "01234567-89ab-cdef-0123-456789abcdef"

/-- A second canonical identifier. -/
def uuidB : String := "fedcba98-7654-3210-fedc-ba9876543210"

/-- A third canonical identifier. -/
def uuidC : String := "00000000-0000-4000-8000-000000000001"

/-- A fourth canonical identifier. -/
def uuidD : String := "00000000-0000-4000-8000-000000000002"

/-- A generator returning canonical identifiers. -/
def sampleGen : Nat → String
  | 0 => uuidA
  | 1 => uuidB
  | 2 => uuidC
  | _ => uuidD

/-- A configuration without any server entry. -/
def emptyConfig : Config := ⟨ServerInfo.zero, []⟩

/-- A batch with a host, a container of that host and an image of another server. -/
def sampleBatch : List ScanResult :=
  [hostResult "a", containerResult "a" "c1" "web", imageResult "b" "alpine" "3"]

/-- A configuration whose entry of the server `a` holds a valid identifier for the host
and a value that fails the format check for the container `web`. -/
def storedConfig : Config :=
  ⟨ServerInfo.zero,
    [("a", { ServerInfo.zero with UUIDs := some [("a", uuidC), ("web@a", "not-an-identifier")] })]⟩

/-- A configuration whose entry of the server `a` holds, for the host, a canonical
identifier with two more characters in front. -/
def paddedConfig : Config :=
  ⟨ServerInfo.zero,
    [("a", { ServerInfo.zero with
              UUIDs := some [("a", "zz01234567-89ab-cdef-0123-456789abcdef")] })]⟩

/-- The batch of the example of the specification: `b`, `a`, `a/c2`, `a/c1`. -/
def exampleBatch : List ScanResult :=
  [hostResult "b", hostResult "a", containerResult "a" "c2" "two",
   containerResult "a" "c1" "one"]

/-- The order of the example of the specification: `a`, `a/c1`, `a/c2`, `b`. -/
def exampleSorted : List ScanResult :=
  [hostResult "a", containerResult "a" "c1" "one", containerResult "a" "c2" "two",
   hostResult "b"]

/-! ## Auxiliary notions for the proofs -/

/-- Coherence of the state inside an iteration for the server `sn` with the state `env`
at its start: `m` is the content of the local map. -/
def IterOK (env : Env) (sn : String) (it : Iter) (m : GoMap String) : Prop :=
  it.server.UUIDs = some m ∧
  it.Conf.Default = env.Conf.Default ∧
  (∀ q, q ≠ sn → mapGet it.Conf.Servers q = mapGet env.Conf.Servers q) ∧
  (it.shared = true → ∃ stored, mapGet it.Conf.Servers sn = some stored ∧
      stored.UUIDs = some m) ∧
  (it.shared = false → it.Conf = env.Conf ∧ storedUUIDs env.Conf sn = none ∧
      ∀ k v, mapGet m k = some v → k = sn)

/-- Effect of lines 76-89 on the content `m` of the identifier map of the entry. -/
def hostStage (gen : Nat → String) (calls : Nat) (r : ScanResult) (m : GoMap String) :
    GoMap String × Nat :=
  if r.IsContainer || r.IsImage then
    match mapGet m r.ServerName with
    | none => (if gen calls ≠ "" then mapSet m r.ServerName (gen calls) else m, calls + 1)
    | some h =>
        if validUUID h then (m, calls)
        else (if gen calls ≠ "" then mapSet m r.ServerName (gen calls) else m, calls + 1)
  else (m, calls)

/-- Effect of lines 91-118 on the content of the identifier map of the entry: the final
content, the number of generator calls and the identifier of the target. -/
def keyStage (gen : Nat → String) (r : ScanResult) (mc : GoMap String × Nat) :
    GoMap String × Nat × String :=
  match mapGet mc.1 (identityKey r) with
  | none => (mapSet mc.1 (identityKey r) (gen mc.2), mc.2 + 1, gen mc.2)
  | some id =>
      if validUUID id then (mc.1, mc.2, id)
      else (mapSet mc.1 (identityKey r) (gen mc.2), mc.2 + 1, gen mc.2)

/-- A result is settled in a configuration when the configuration holds, under the
identity key of the result, an identifier that passes the format check and is the one
carried by the result, and, for a container or image result, holds under the bare server
name an identifier that passes the format check, which a container result carries as
`ServerUUID`. -/
def Settled (conf : Config) (r : ScanResult) : Prop :=
  (∃ id, lookupUUID conf r.ServerName (identityKey r) = some id ∧ validUUID id = true ∧
    ownUUID r = id) ∧
  ((r.IsContainer || r.IsImage) = true →
    ∃ h, lookupUUID conf r.ServerName r.ServerName = some h ∧ validUUID h = true) ∧
  (r.IsContainer = true → lookupUUID conf r.ServerName r.ServerName = some r.ServerUUID)

/-! ## `cleanForTOMLEncoding` on the `Optional` map, and the loop of lines 121-124 -/

/-- The keys of a map are pairwise distinct, as they are in every Go map. -/
def mapWF {α : Type} (m : GoMap α) : Prop := (m.map Prod.fst).Nodup

/-- A map that may be nil has pairwise distinct keys. -/
def mapWFN {α : Type} (m : Option (GoMap α)) : Prop :=
  match m with
  | none => True
  | some kvs => mapWF kvs

/-- Effect of one iteration of the loop `for k, v := range def.Optional` on the map
`server.Optional`. -/
def stepOptional (o : Option (GoMap String)) (kv : String × String) : Option (GoMap String) :=
  match mapGetN o kv.1 with
  | some vv => if kv.2 = vv then mapDeleteN o kv.1 else o
  | none => o

/-- The map `Optional` of `cleanForTOMLEncoding(server, def)`: nil when deep-equal to the
default's, then without the keys that carry the value of the default. -/
def cleanedOptional (server defaults : ServerInfo) : Option (GoMap String) :=
  (defaults.Optional.getD []).foldl stepOptional
    (if deepEqualMap server.Optional defaults.Optional then none else server.Optional)

/-- Lines 121-124: every entry of `c.Conf.Servers` is replaced by its cleaned entry. -/
def cleanServers (conf : Config) : Config :=
  { conf with
    Servers := conf.Servers.map (fun p => (p.1, cleanForTOMLEncoding p.2 conf.Default)) }

/-! ## Sample entries -/

/-- A default entry: user `root`, two optional settings, two ignored CVEs, two enabled
repositories. -/
def rootDefault : ServerInfo :=
  { ServerInfo.zero with
    User := "root", Optional := some [("foo", "1"), ("bar", "2")],
    IgnoreCves := some ["CVE-2", "CVE-1"], Enablerepo := some ["base", "updates"] }

/-- A server entry: the user and the setting `foo` of `rootDefault`, another value for
`bar`, and the ignored CVEs and enabled repositories of `rootDefault` in another order. -/
def rootEntry : ServerInfo :=
  { ServerInfo.zero with
    User := "root", Host := "192.0.2.1", Optional := some [("foo", "1"), ("bar", "3")],
    IgnoreCves := some ["CVE-1", "CVE-2"], Enablerepo := some ["updates", "base"],
    UUIDs := some [("a", uuidA)] }

/-! ## `Distinct` (`util/util.go`) -/

/-- One iteration of the loop of `Distinct`: a string not yet in the map `m` is entered
in the map and appended to `distincted`. -/
def distinctStep (st : GoMap Bool × List String) (s : String) : GoMap Bool × List String :=
  match mapGet st.1 s with
  | some _ => st
  | none => (mapSet st.1 s true, st.2 ++ [s])

/-- The function `Distinct(ss)`. -/
def Distinct (ss : List String) : List String :=
  (ss.foldl distinctStep ([], [])).2

/-- The elements of a list in the order of their first occurrence, each once. -/
def firstOccurrences : List String → List String
  | [] => []
  | x :: xs => x :: (firstOccurrences xs).filter (fun y => decide (y ≠ x))

/-! ## The snapshot of lines 126-216 -/

/-- Modelled from the spec: `config.SMTPConf` is declared outside `src/`; its primary
identifying field, read at line 127, is the address `SMTPAddr`. -/
structure SMTPConf where
  SMTPAddr : String
  deriving DecidableEq, Repr

/-- Modelled from the spec: `config.SlackConf` is declared outside `src/`; its primary
identifying field, read at line 132, is `HookURL`. -/
structure SlackConf where
  HookURL : String
  deriving DecidableEq, Repr

/-- Modelled from the spec: `config.GoCveDictConf` is declared outside `src/`; an
external dictionary is identified by its URL. -/
structure GoCveDictConf where
  URL : String
  deriving DecidableEq, Repr

/-- Modelled from the spec: `config.GovalDictConf` is declared outside `src/`; an
external dictionary is identified by its URL. -/
structure GovalDictConf where
  URL : String
  deriving DecidableEq, Repr

/-- Modelled from the spec: `config.GostConf` is declared outside `src/`; an external
dictionary is identified by its URL. -/
structure GostConf where
  URL : String
  deriving DecidableEq, Repr

/-- Modelled from the spec: `config.ExploitConf` is declared outside `src/`; an external
dictionary is identified by its URL. -/
structure ExploitConf where
  URL : String
  deriving DecidableEq, Repr

/-- Modelled from the spec: `config.HTTPConf` is declared outside `src/`; its primary
identifying field, read at line 141, is `URL`. -/
structure HTTPConf where
  URL : String
  deriving DecidableEq, Repr

/-- Modelled from the spec: `config.SyslogConf` is declared outside `src/`; its primary
identifying field, read at line 146, is `Host`. -/
structure SyslogConf where
  Host : String
  deriving DecidableEq, Repr

/-- Modelled from the spec: `config.AWS` is declared outside `src/`; its primary
identifying field, read at line 151, is the bucket `S3Bucket`. -/
structure AWS where
  S3Bucket : String
  deriving DecidableEq, Repr

/-- Modelled from the spec: `config.Azure` is declared outside `src/`; its primary
identifying field, read at line 156, is `AccountName`. -/
structure Azure where
  AccountName : String
  deriving DecidableEq, Repr

/-- Modelled from the spec: `config.StrideConf` is declared outside `src/`; its primary
identifying field, read at line 161, is `HookURL`. -/
structure StrideConf where
  HookURL : String
  deriving DecidableEq, Repr

/-- Modelled from the spec: `config.HipChatConf` is declared outside `src/`; its primary
identifying field, read at line 166, is the token `AuthToken`. -/
structure HipChatConf where
  AuthToken : String
  deriving DecidableEq, Repr

/-- Modelled from the spec: `config.ChatWorkConf` is declared outside `src/`; its primary
identifying field, read at line 171, is the token `APIToken`. -/
structure ChatWorkConf where
  APIToken : String
  deriving DecidableEq, Repr

/-- Modelled from the spec: `config.SaasConf` is declared outside `src/`; its primary
identifying field, compared with `0` at line 176, is the group id `GroupID`. -/
structure SaasConf where
  GroupID : Int
  deriving DecidableEq, Repr

/-- The integration blocks of the global `c.Conf` read by lines 126-178. -/
structure Integrations where
  EMail : SMTPConf
  Slack : SlackConf
  CveDict : GoCveDictConf
  OvalDict : GovalDictConf
  Gost : GostConf
  Exploit : ExploitConf
  HTTP : HTTPConf
  Syslog : SyslogConf
  AWS : AWS
  Azure : Azure
  Stride : StrideConf
  HipChat : HipChatConf
  ChatWork : ChatWorkConf
  Saas : SaasConf
  deriving DecidableEq, Repr

/-- The value `c` of lines 180-216 handed to the encoder: a pointer that is nil is
`none`. -/
structure Snapshot where
  CveDict : Option GoCveDictConf
  OvalDict : Option GovalDictConf
  Gost : Option GostConf
  Exploit : Option ExploitConf
  Slack : Option SlackConf
  Email : Option SMTPConf
  HTTP : Option HTTPConf
  Syslog : Option SyslogConf
  AWS : Option AWS
  Azure : Option Azure
  Stride : Option StrideConf
  HipChat : Option HipChatConf
  ChatWork : Option ChatWorkConf
  Saas : Option SaasConf
  Default : ServerInfo
  Servers : GoMap ServerInfo
  deriving DecidableEq, Repr

/-- Lines 126-216: the pointers to the integration blocks, set to nil where the test of
the block says so, with the default entry and the entries of the servers. -/
def snapshot (conf : Config) (c : Integrations) : Snapshot :=
  { CveDict := some c.CveDict,
    OvalDict := some c.OvalDict,
    Gost := some c.Gost,
    Exploit := some c.Exploit,
    Slack := if c.Slack.HookURL = "" then none else some c.Slack,
    Email := if c.EMail.SMTPAddr = "" then none else some c.EMail,
    HTTP := if c.HTTP.URL = "" then none else some c.HTTP,
    Syslog := if c.Syslog.Host = "" then none else some c.Syslog,
    AWS := if c.AWS.S3Bucket = "" then none else some c.AWS,
    Azure := if c.Azure.AccountName = "" then none else some c.Azure,
    Stride := if c.Stride.HookURL = "" then none else some c.Stride,
    HipChat := if c.HipChat.AuthToken = "" then none else some c.HipChat,
    ChatWork := if c.ChatWork.APIToken = "" then none else some c.ChatWork,
    Saas := if c.Saas.GroupID = 0 then none else some c.Saas,
    Default := conf.Default,
    Servers := conf.Servers }

/-- Integration blocks that are all unconfigured. -/
def noIntegrations : Integrations :=
  ⟨⟨""⟩, ⟨""⟩, ⟨""⟩, ⟨""⟩, ⟨""⟩, ⟨""⟩, ⟨""⟩, ⟨""⟩, ⟨""⟩, ⟨""⟩, ⟨""⟩, ⟨""⟩, ⟨""⟩, ⟨0⟩⟩

/-! ## The file system and lines 218-243 -/

/-- A node of the file system: a regular file with its content, or a symbolic link with
its target. -/
inductive Node where
  | file (content : String)
  | symlink (target : String)
  deriving DecidableEq, Repr

/-- The state of the file system: the node found at each path. -/
abbrev FileSystem := GoMap Node

/-- Errors of the operating system that do not come from the state of the file system
(permissions, input and output): each flag makes the call of that name fail. -/
structure Faults where
  lstat : Bool
  readlink : Bool
  rename : Bool
  write : Bool
  deriving DecidableEq, Repr

/-- The step at which `EnsureUUIDs` returns an error. -/
inductive Failure where
  | lstat
  | readlink
  | rename
  | encode
  | write
  deriving DecidableEq, Repr

/-- The call `os.Lstat(path)`: the node at the path itself, an error when there is none. -/
def osLstat (faults : Faults) (fs : FileSystem) (path : String) : Option Node :=
  if faults.lstat then none else mapGet fs path

/-- The call `os.Readlink(path)`: the target of a symbolic link, an error otherwise. -/
def osReadlink (faults : Faults) (fs : FileSystem) (path : String) : Option String :=
  if faults.readlink then none
  else match mapGet fs path with
    | some (Node.symlink target) => some target
    | _ => none

/-- The call `os.Rename(oldpath, newpath)`: the node moves to the new path, replacing
what was there; a failed call changes nothing. -/
def osRename (faults : Faults) (fs : FileSystem) (oldpath newpath : String) :
    Option FileSystem :=
  if faults.rename then none
  else match mapGet fs oldpath with
    | some node => some (mapSet (mapDelete fs oldpath) newpath node)
    | none => none

/-- The call `ioutil.WriteFile(path, data, 0600)`: a regular file with the data at the
path; a failed call is taken to write nothing. -/
def osWriteFile (faults : Faults) (fs : FileSystem) (path data : String) :
    Option FileSystem :=
  if faults.write then none else some (mapSet fs path (Node.file data))

/-- The call `strings.Replace(s, "\n  [", "\n\n  [", -1)` of line 237, on characters. -/
def blankLineBeforeTables : List Char → List Char
  | [] => []
  | '\n' :: ' ' :: ' ' :: '[' :: rest =>
      '\n' :: '\n' :: ' ' :: ' ' :: '[' :: blankLineBeforeTables rest
  | c :: rest => c :: blankLineBeforeTables rest

/-- Lines 237-240: the text written to the file for the output `buf` of the encoder. -/
def fileText (buf : String) : String :=
  "# See REAME for details: https://vuls.io/docs/en/usage-settings.html" ++ "\n\n" ++
    String.mk (blankLineBeforeTables buf.toList)

/-- Lines 219-228: the path that is renamed and written, the target of `configPath` when
it is a symbolic link and `configPath` itself otherwise. -/
def resolvePath (faults : Faults) (fs : FileSystem) (configPath : String) :
    Except Failure String :=
  match osLstat faults fs configPath with
  | none => Except.error Failure.lstat
  | some (Node.symlink _) =>
      match osReadlink faults fs configPath with
      | none => Except.error Failure.readlink
      | some realPath => Except.ok realPath
  | some (Node.file _) => Except.ok configPath

/-- Lines 218-243: the returned error (`none` for nil) and the file system left. The
encoder of the TOML library is a function that may fail. -/
def writeConfig (faults : Faults) (encode : Snapshot → Option String) (fs : FileSystem)
    (configPath : String) (c : Snapshot) : Option Failure × FileSystem :=
  match resolvePath faults fs configPath with
  | Except.error e => (some e, fs)
  | Except.ok realPath =>
      match osRename faults fs realPath (realPath ++ ".bak") with
      | none => (some Failure.rename, fs)
      | some renamed =>
          match encode c with
          | none => (some Failure.encode, renamed)
          | some buf =>
              match osWriteFile faults renamed realPath (fileText buf) with
              | none => (some Failure.write, renamed)
              | some written => (none, written)

/-- What `EnsureUUIDs` leaves: the returned error, the file system, the configuration,
the number of generator calls and the results. -/
structure Outcome where
  err : Option Failure
  fs : FileSystem
  Conf : Config
  calls : Nat
  results : List ScanResult
  deriving DecidableEq, Repr

/-- The function `EnsureUUIDs(configPath, results)`: the sort (here by insertion), the
identity-assignment loop, the cleaning of every entry, the snapshot and the replacement
of the file. -/
def EnsureUUIDs (gen : Nat → String) (faults : Faults) (encode : Snapshot → Option String)
    (ints : Integrations) (fs : FileSystem) (env : Env) (configPath : String)
    (results : List ScanResult) : Outcome :=
  let looped := ensureLoop gen env (sortSlice results)
  let conf := cleanServers looped.1.Conf
  let written := writeConfig faults encode fs configPath (snapshot conf ints)
  ⟨written.1, written.2, conf, looped.1.calls, looped.2⟩

/-! ## Sample file systems -/

/-- A file system with the configuration file and nothing else. -/
def sampleFiles : FileSystem := [("config.toml", Node.file "old content")]

/-- A file system where the configuration path is a symbolic link to the real file. -/
def linkedFiles : FileSystem :=
  [("config.toml", Node.symlink "real.toml"), ("real.toml", Node.file "old content")]

/-- No error of the operating system besides those coming from the file system. -/
def noFaults : Faults := ⟨false, false, false, false⟩

/-- An encoder that fails. -/
def failingEncoder : Snapshot → Option String := fun _ => none

/-! ## Filling a cleaned entry from the default -/

/-- Modelled from the spec: the loader that fills an entry from the default is outside
`src/`; a scalar field that is empty is taken from the default. -/
def fillString (c d : String) : String := if c = "" then d else c

/-- Modelled from the spec: the loader that fills an entry from the default is outside
`src/`; a list field that is empty or absent is taken from the default. -/
def fillSlice (c d : Option (List String)) : Option (List String) :=
  if c.getD [] = [] then d else c

/-- Modelled from the spec: the loader that fills an entry from the default is outside
`src/`; every key of the default's `Optional` that is missing from the entry is added
with the value of the default, and an absent map is the default's. -/
def fillOptional (c d : Option (GoMap String)) : Option (GoMap String) :=
  match c, d with
  | none, _ => d
  | some m, none => some m
  | some m, some dm => some (m ++ dm.filter (fun p => decide (mapGet m p.1 = none)))

/-- Modelled from the spec: the loader that fills an entry from the default is outside
`src/`; the reconstruction of an entry `c` against the default `d` fills every elided
inheritable field, and every missing `Optional` key, from `d`. -/
def expandEntry (c d : ServerInfo) : ServerInfo :=
  { User := fillString c.User d.User,
    Host := fillString c.Host d.Host,
    Port := fillString c.Port d.Port,
    KeyPath := fillString c.KeyPath d.KeyPath,
    ScanMode := fillSlice c.ScanMode d.ScanMode,
    Type_ := fillString c.Type_ d.Type_,
    CpeNames := fillSlice c.CpeNames d.CpeNames,
    OwaspDCXMLPath := fillString c.OwaspDCXMLPath d.OwaspDCXMLPath,
    IgnoreCves := fillSlice c.IgnoreCves d.IgnoreCves,
    Enablerepo := fillSlice c.Enablerepo d.Enablerepo,
    Optional := fillOptional c.Optional d.Optional,
    UUIDs := c.UUIDs,
    Others := c.Others }

/-- Two maps are the same map: both nil or both not nil, with the same value under
every key. -/
def sameMap (a b : Option (GoMap String)) : Prop :=
  a.isSome = b.isSome ∧ ∀ k, mapGetN a k = mapGetN b k

/-- Two entries are the same entry: equal on every field, `Optional` as a map. -/
def sameEntry (x y : ServerInfo) : Prop :=
  x.User = y.User ∧ x.Host = y.Host ∧ x.Port = y.Port ∧ x.KeyPath = y.KeyPath ∧
  x.ScanMode = y.ScanMode ∧ x.Type_ = y.Type_ ∧ x.CpeNames = y.CpeNames ∧
  x.OwaspDCXMLPath = y.OwaspDCXMLPath ∧ x.IgnoreCves = y.IgnoreCves ∧
  x.Enablerepo = y.Enablerepo ∧ sameMap x.Optional y.Optional ∧ x.UUIDs = y.UUIDs ∧
  x.Others = y.Others

/-- An entry with an empty user and no setting. -/
def blankEntry : ServerInfo := { ServerInfo.zero with Host := "192.0.2.2" }

/-- An entry as loaded against `rootDefault`: every field of the default is present. -/
def loadedEntry : ServerInfo :=
  { ServerInfo.zero with
    User := "root", Host := "192.0.2.1", Optional := some [("foo", "1"), ("bar", "3")],
    IgnoreCves := some ["CVE-2", "CVE-1"], Enablerepo := some ["extras"],
    UUIDs := some [("a", uuidA)] }

/-! ## Lemmas on maps and on `cleanForTOMLEncoding` -/

theorem mapGet_mapDelete {α : Type} (m : GoMap α) (k q : String) :
    mapGet (mapDelete m k) q = if q = k then none else mapGet m q := by
  induction m with
  | nil => simp [mapDelete, mapGet]
  | cons p rest ih =>
    obtain ⟨a, b⟩ := p
    unfold mapDelete at ih ⊢
    by_cases h : a = k
    · subst h
      simp only [List.filter, decide_True, Bool.not_true]
      rw [ih]
      by_cases hq : q = a
      · simp [hq]
      · have : ¬ a = q := fun e => hq e.symm
        simp [hq, mapGet, this]
    · simp only [List.filter, h, decide_False, Bool.not_false, mapGet]
      rw [ih]
      by_cases hq : q = k
      · subst hq; simp [h]
      · simp [hq]

theorem mapGet_mapSet {α : Type} (m : GoMap α) (k q : String) (v : α) :
    mapGet (mapSet m k v) q = if q = k then some v else mapGet m q := by
  unfold mapSet
  simp only [mapGet]
  by_cases h : k = q
  · simp [h]
  · have : ¬ q = k := fun e => h e.symm
    simp [h, this, mapGet_mapDelete]

theorem cleanOptional_UUIDs (kvs : List (String × String)) (s : ServerInfo) :
    (kvs.foldl cleanOptionalKey s).UUIDs = s.UUIDs := by
  induction kvs generalizing s with
  | nil => rfl
  | cons kv rest ih =>
    simp only [List.foldl]
    rw [ih]
    unfold cleanOptionalKey
    split
    · split <;> rfl
    · rfl

theorem cleanForTOMLEncoding_UUIDs (s d : ServerInfo) :
    (cleanForTOMLEncoding s d).UUIDs = s.UUIDs := by
  have h1 : ∀ x, (clearOptional d x).UUIDs = x.UUIDs := fun x => by
    unfold clearOptional; split <;> rfl
  have h2 : ∀ x, (clearUser d x).UUIDs = x.UUIDs := fun x => by
    unfold clearUser; split <;> rfl
  have h3 : ∀ x, (clearHost d x).UUIDs = x.UUIDs := fun x => by
    unfold clearHost; split <;> rfl
  have h4 : ∀ x, (clearPort d x).UUIDs = x.UUIDs := fun x => by
    unfold clearPort; split <;> rfl
  have h5 : ∀ x, (clearKeyPath d x).UUIDs = x.UUIDs := fun x => by
    unfold clearKeyPath; split <;> rfl
  have h6 : ∀ x, (clearScanMode d x).UUIDs = x.UUIDs := fun x => by
    unfold clearScanMode; split <;> rfl
  have h7 : ∀ x, (clearType d x).UUIDs = x.UUIDs := fun x => by
    unfold clearType; split <;> rfl
  have h8 : ∀ x, (clearCpeNames d x).UUIDs = x.UUIDs := fun x => by
    unfold clearCpeNames; split <;> rfl
  have h9 : ∀ x, (clearOwaspDCXMLPath d x).UUIDs = x.UUIDs := fun x => by
    unfold clearOwaspDCXMLPath; split <;> rfl
  have h10 : ∀ x, (clearIgnoreCves d x).UUIDs = x.UUIDs := fun x => by
    unfold clearIgnoreCves; split <;> rfl
  have h11 : ∀ x, (clearEnablerepo d x).UUIDs = x.UUIDs := fun x => by
    unfold clearEnablerepo; split <;> rfl
  unfold cleanForTOMLEncoding cleanOptionalKeys
  rw [cleanOptional_UUIDs, h11, h10, h9, h8, h7, h6, h5, h4, h3, h2, h1]

theorem enterIter_ok (env : Env) (r : ScanResult) :
    IterOK env r.ServerName (enterIter env r) ((storedUUIDs env.Conf r.ServerName).getD []) ∧
    (enterIter env r).calls = env.calls ∧ (enterIter env r).Conf = env.Conf := by
  unfold IterOK enterIter storedUUIDs
  cases hs : mapGet env.Conf.Servers r.ServerName with
  | none => simp [ServerInfo.zero, hs, mapGet]
  | some sv =>
    cases hu : sv.UUIDs with
    | none => simp [hs, hu, mapGet]
    | some m => simp [hs, hu]

theorem assignUUID_ok (env : Env) (sn k v : String) (it : Iter) (m : GoMap String)
    (h : IterOK env sn it m) (hk : it.shared = false → k = sn) :
    IterOK env sn (assignUUID it sn k v) (mapSet m k v) ∧
    (assignUUID it sn k v).calls = it.calls ∧ (assignUUID it sn k v).shared = it.shared := by
  obtain ⟨h1, h2, h3, h4, h5⟩ := h
  unfold assignUUID IterOK
  cases hsh : it.shared with
  | false =>
    obtain ⟨e1, e2, e3⟩ := h5 hsh
    have hk' := hk hsh
    subst hk'
    simp only [h1, Option.getD_some, Bool.false_eq_true, if_false, true_and, and_true]
    refine ⟨h2, h3, by simp, fun _ => ⟨e1, e2, ?_⟩⟩
    intro q w hq
    rw [mapGet_mapSet] at hq
    by_cases e : q = k
    · exact e
    · simp [e] at hq; exact e3 q w hq
  | true =>
    obtain ⟨stored, e1, e2⟩ := h4 hsh
    simp only [h1, Option.getD_some, if_true, e1, true_and, and_true]
    refine ⟨h2, ?_, ?_, by simp⟩
    · intro q hq
      rw [mapGet_mapSet]; simp [hq, h3 q hq]
    · intro _
      refine ⟨{ stored with UUIDs := some (mapSet m k v) }, ?_, rfl⟩
      rw [mapGet_mapSet]; simp

theorem identityKey_ne (r : ScanResult) (h : (r.IsContainer || r.IsImage) = true) :
    identityKey r ≠ r.ServerName := by
  intro e
  have hl := congrArg String.length e
  unfold identityKey at hl
  split at hl
  · simp [String.length_append] at hl
    exact absurd hl.2 (by decide)
  · split at hl
    · simp [String.length_append] at hl
      exact absurd hl.2 (by decide)
    · simp_all

theorem ensureHost_ok (gen : Nat → String) (env : Env) (r : ScanResult) (it : Iter)
    (m : GoMap String) (h : IterOK env r.ServerName it m)
    (hn : (r.IsContainer || r.IsImage) = true) :
    IterOK env r.ServerName (ensureHost gen r it) (hostStage gen it.calls r m).1 ∧
    (ensureHost gen r it).calls = (hostStage gen it.calls r m).2 ∧
    (ensureHost gen r it).shared = it.shared ∧
    ((∃ hv, mapGet m r.ServerName = some hv ∧ validUUID hv = true) →
      ensureHost gen r it = it) := by
  have h1 := h.1
  unfold ensureHost getOrCreateServerUUID hostStage validUUID
  simp only [hn, if_true, h1, mapGetN]
  cases hg : mapGet m r.ServerName with
  | none =>
    simp only []
    by_cases hne : gen it.calls = ""
    · simp only [hne, ne_eq, not_true_eq_false, if_false, and_true]
      exact ⟨h, by simp⟩
    · simp only [hne, ne_eq, not_false_eq_true, if_true]
      have := assignUUID_ok env r.ServerName r.ServerName (gen it.calls)
        { it with calls := it.calls + 1 } m h (fun _ => rfl)
      exact ⟨this.1, this.2.1, this.2.2, by simp⟩
  | some hv =>
    simp only []
    by_cases hvv : regexpMatchString reUUID hv = true
    · simp only [hvv, Bool.not_true, Bool.false_eq_true, if_false, ne_eq, not_true_eq_false,
        if_true, and_true, implies_true]
      exact h
    · simp only [Bool.not_eq_true] at hvv
      simp only [hvv, Bool.not_false, if_true, Bool.false_eq_true, if_false]
      by_cases hne : gen it.calls = ""
      · simp only [hne, ne_eq, not_true_eq_false, if_false, and_true]
        exact ⟨h, by simp [hvv]⟩
      · simp only [hne, ne_eq, not_false_eq_true, if_true]
        have := assignUUID_ok env r.ServerName r.ServerName (gen it.calls)
          { it with calls := it.calls + 1 } m h (fun _ => rfl)
        exact ⟨this.1, this.2.1, this.2.2, by simp [hvv]⟩

theorem assignUUID_basic (it : Iter) (sn k v : String) :
    (assignUUID it sn k v).server.UUIDs = some (mapSet (it.server.UUIDs.getD []) k v) ∧
    (assignUUID it sn k v).Conf.Default = it.Conf.Default ∧
    (∀ q, q ≠ sn → mapGet (assignUUID it sn k v).Conf.Servers q = mapGet it.Conf.Servers q) := by
  unfold assignUUID
  refine ⟨rfl, ?_, ?_⟩
  · simp only []
    split
    · split <;> rfl
    · rfl
  · intro q hq
    simp only []
    split
    · split
      · simp [mapGet_mapSet, hq]
      · rfl
    · rfl

theorem assignFresh_spec (gen : Nat → String) (env : Env) (r : ScanResult) (it : Iter)
    (m : GoMap String) (h : IterOK env r.ServerName it m) (name : String) :
    storedUUIDs (assignFresh gen r name it).1.Conf r.ServerName
        = some (mapSet m name (gen it.calls)) ∧
    (assignFresh gen r name it).1.calls = it.calls + 1 ∧
    (∃ srv : ServerInfo, srv.UUIDs = some (mapSet m name (gen it.calls)) ∧
        (assignFresh gen r name it).2 = writeResult r srv (gen it.calls)) ∧
    (∀ q, q ≠ r.ServerName →
        mapGet (assignFresh gen r name it).1.Conf.Servers q = mapGet env.Conf.Servers q) ∧
    (assignFresh gen r name it).1.Conf.Default = env.Conf.Default := by
  obtain ⟨b1, b2, b3⟩ := assignUUID_basic it r.ServerName name (gen it.calls)
  rw [h.1] at b1
  simp only [Option.getD_some] at b1
  unfold assignFresh storedUUIDs
  simp only [mapGet_mapSet, if_true, Option.getD_some, cleanForTOMLEncoding_UUIDs]
  refine ⟨b1, trivial, ⟨_, ?_, rfl⟩, ?_, ?_⟩
  · rw [cleanForTOMLEncoding_UUIDs]; exact b1
  · intro q hq
    simp only [hq, if_false]
    rw [b3 q hq]; exact h.2.2.1 q hq
  · rw [b2]; exact h.2.1

theorem ensureResult_spec (gen : Nat → String) (env : Env) (r : ScanResult) :
    storedUUIDs (ensureResult gen env r).1.Conf r.ServerName
      = some (keyStage gen r (hostStage gen env.calls r
          ((storedUUIDs env.Conf r.ServerName).getD []))).1 ∧
    (ensureResult gen env r).1.calls
      = (keyStage gen r (hostStage gen env.calls r
          ((storedUUIDs env.Conf r.ServerName).getD []))).2.1 ∧
    (∃ srv : ServerInfo,
      srv.UUIDs = some (keyStage gen r (hostStage gen env.calls r
          ((storedUUIDs env.Conf r.ServerName).getD []))).1 ∧
      (ensureResult gen env r).2 = writeResult r srv
        (keyStage gen r (hostStage gen env.calls r
          ((storedUUIDs env.Conf r.ServerName).getD []))).2.2) ∧
    (∀ q, q ≠ r.ServerName →
        mapGet (ensureResult gen env r).1.Conf.Servers q = mapGet env.Conf.Servers q) ∧
    (ensureResult gen env r).1.Conf.Default = env.Conf.Default := by
  obtain ⟨h0, c0, f0⟩ := enterIter_ok env r
  generalize hm0 : (storedUUIDs env.Conf r.ServerName).getD [] = m0 at h0 ⊢
  -- the state after the host stage
  have hstage : ∃ it1 : Iter,
      (if r.IsContainer then ensureHost gen r (enterIter env r)
        else if r.IsImage then ensureHost gen r (enterIter env r)
        else enterIter env r) = it1 ∧
      IterOK env r.ServerName it1 (hostStage gen env.calls r m0).1 ∧
      it1.calls = (hostStage gen env.calls r m0).2 ∧
      (it1.shared = false → mapGet (hostStage gen env.calls r m0).1 (identityKey r) = none) := by
    refine ⟨_, rfl, ?_⟩
    by_cases hn : (r.IsContainer || r.IsImage) = true
    · have e : (if r.IsContainer then ensureHost gen r (enterIter env r)
          else if r.IsImage then ensureHost gen r (enterIter env r)
          else enterIter env r) = ensureHost gen r (enterIter env r) := by
        by_cases hc : r.IsContainer = true
        · simp [hc]
        · have hi : r.IsImage = true := by simpa [hc] using hn
          simp [hc, hi]
      rw [e]
      have := ensureHost_ok gen env r (enterIter env r) m0 h0 hn
      rw [c0] at this
      refine ⟨this.1, this.2.1, ?_⟩
      intro hsh
      cases hl : mapGet (hostStage gen env.calls r m0).1 (identityKey r) with
      | none => rfl
      | some v =>
        exact absurd ((this.1.2.2.2.2 hsh).2.2 _ _ hl) (identityKey_ne r hn)
    · have hc : r.IsContainer = false := by
        cases hh : r.IsContainer <;> simp_all
      have hi : r.IsImage = false := by
        cases hh : r.IsImage <;> simp_all
      have hs : hostStage gen env.calls r m0 = (m0, env.calls) := by
        unfold hostStage; simp [hc, hi]
      simp only [hc, hi, Bool.false_eq_true, if_false, hs]
      refine ⟨h0, c0, ?_⟩
      intro hsh
      have := (h0.2.2.2.2 hsh).2.1
      rw [this] at hm0
      simp only [Option.getD_none] at hm0
      rw [← hm0]; rfl
  obtain ⟨it1, e1, ok1, c1, ns1⟩ := hstage
  unfold ensureResult
  simp only [e1]
  generalize hostStage gen env.calls r m0 = hs at ok1 c1 ns1 ⊢
  obtain ⟨m1, n1⟩ := hs
  simp only at ok1 c1 ns1
  have hfresh := assignFresh_spec gen env r it1 m1 ok1 (identityKey r)
  rw [c1] at hfresh
  unfold keyStage
  simp only [ok1.1, mapGetN]
  cases hl : mapGet m1 (identityKey r) with
  | none => simpa using hfresh
  | some id =>
    simp only []
    by_cases hv : regexpMatchString reUUID id = true
    · have hv' : validUUID id = true := hv
      simp only [hv, hv', if_true]
      have hsh : it1.shared = true := by
        cases hh : it1.shared with
        | true => rfl
        | false => rw [ns1 hh] at hl; cases hl
      obtain ⟨stored, s1, s2⟩ := ok1.2.2.2.1 hsh
      refine ⟨?_, c1, ⟨it1.server, ok1.1, rfl⟩, ok1.2.2.1, ok1.2.1⟩
      unfold storedUUIDs
      simp [s1, s2]
    · have hv' : validUUID id = false := by
        unfold validUUID; simpa using hv
      simp only [hv, hv', if_false, Bool.false_eq_true]
      simpa using hfresh

/-! ## The loop body on the content of the identifier map -/

theorem lookupUUID_eq (conf : Config) (sn k : String) :
    lookupUUID conf sn k = mapGet ((storedUUIDs conf sn).getD []) k := by
  unfold lookupUUID
  cases storedUUIDs conf sn <;> rfl

theorem lookupUUID_other (c1 c2 : Config) (sn : String)
    (h : ∀ q, q ≠ sn → mapGet c2.Servers q = mapGet c1.Servers q) (q k : String)
    (hq : q ≠ sn) : lookupUUID c2 q k = lookupUUID c1 q k := by
  unfold lookupUUID storedUUIDs
  rw [h q hq]

theorem validUUID_ne_empty (s : String) (h : validUUID s = true) : s ≠ "" := by
  intro e
  subst e
  revert h
  decide

theorem hostStage_preserve (gen : Nat → String) (calls : Nat) (r : ScanResult)
    (m : GoMap String) (k v : String) (h : mapGet m k = some v) (hv : validUUID v = true) :
    mapGet (hostStage gen calls r m).1 k = some v := by
  unfold hostStage
  split
  · by_cases hk : k = r.ServerName
    · subst hk
      simp [h, hv]
    · split
      · split <;> simp [mapGet_mapSet, hk, h]
      · split
        · exact h
        · split <;> simp [mapGet_mapSet, hk, h]
  · exact h

theorem hostStage_host (gen : Nat → String) (calls : Nat) (r : ScanResult)
    (m : GoMap String) (hn : (r.IsContainer || r.IsImage) = true)
    (hg : validUUID (gen calls) = true) :
    ∃ h, mapGet (hostStage gen calls r m).1 r.ServerName = some h ∧ validUUID h = true := by
  have hne := validUUID_ne_empty _ hg
  unfold hostStage
  simp only [hn, if_true, ne_eq, hne, not_false_eq_true]
  cases hl : mapGet m r.ServerName with
  | none => exact ⟨gen calls, by simp [mapGet_mapSet], hg⟩
  | some h0 =>
    by_cases hv : validUUID h0 = true
    · exact ⟨h0, by simp [hv, hl], hv⟩
    · exact ⟨gen calls, by simp [hv, mapGet_mapSet], hg⟩

theorem hostStage_idle (gen : Nat → String) (calls : Nat) (r : ScanResult)
    (m : GoMap String)
    (h : (r.IsContainer || r.IsImage) = true →
      ∃ h, mapGet m r.ServerName = some h ∧ validUUID h = true) :
    hostStage gen calls r m = (m, calls) := by
  unfold hostStage
  split
  · rename_i hn
    obtain ⟨h0, e, hv⟩ := h hn
    simp [e, hv]
  · rfl

theorem hostStage_calls (gen : Nat → String) (calls : Nat) (r : ScanResult)
    (m : GoMap String) :
    calls ≤ (hostStage gen calls r m).2 ∧ (hostStage gen calls r m).2 ≤ calls + 1 := by
  unfold hostStage
  split
  · split
    · simp
    · split <;> simp
  · simp

theorem keyStage_own (gen : Nat → String) (r : ScanResult) (mc : GoMap String × Nat) :
    mapGet (keyStage gen r mc).1 (identityKey r) = some (keyStage gen r mc).2.2 := by
  unfold keyStage
  split
  · simp [mapGet_mapSet]
  · rename_i id hl
    split
    · exact hl
    · simp [mapGet_mapSet]

theorem keyStage_preserve (gen : Nat → String) (r : ScanResult) (mc : GoMap String × Nat)
    (k v : String) (h : mapGet mc.1 k = some v) (hv : validUUID v = true) :
    mapGet (keyStage gen r mc).1 k = some v := by
  unfold keyStage
  by_cases hk : k = identityKey r
  · subst hk
    simp [h, hv]
  · split
    · simp [mapGet_mapSet, hk, h]
    · split
      · exact h
      · simp [mapGet_mapSet, hk, h]

theorem keyStage_existing (gen : Nat → String) (r : ScanResult) (mc : GoMap String × Nat)
    (v : String) (h : mapGet mc.1 (identityKey r) = some v) (hv : validUUID v = true) :
    keyStage gen r mc = (mc.1, mc.2, v) := by
  unfold keyStage
  simp [h, hv]

theorem keyStage_fresh (gen : Nat → String) (r : ScanResult) (mc : GoMap String × Nat)
    (h : ∀ v, mapGet mc.1 (identityKey r) = some v → validUUID v = false) :
    keyStage gen r mc = (mapSet mc.1 (identityKey r) (gen mc.2), mc.2 + 1, gen mc.2) := by
  unfold keyStage
  cases hl : mapGet mc.1 (identityKey r) with
  | none => rfl
  | some v => simp [h v hl]

theorem keyStage_valid (gen : Nat → String) (r : ScanResult) (mc : GoMap String × Nat)
    (hg : validUUID (gen mc.2) = true) : validUUID (keyStage gen r mc).2.2 = true := by
  unfold keyStage
  split
  · exact hg
  · split
    · assumption
    · exact hg

theorem keyStage_calls (gen : Nat → String) (r : ScanResult) (mc : GoMap String × Nat) :
    mc.2 ≤ (keyStage gen r mc).2.1 ∧ (keyStage gen r mc).2.1 ≤ mc.2 + 1 := by
  unfold keyStage
  split
  · simp
  · split <;> simp


/-! ## The loop body and the loop on the configuration -/

theorem writeResult_shape (r : ScanResult) (srv : ServerInfo) (id : String) :
    (writeResult r srv id).ServerName = r.ServerName ∧
    (writeResult r srv id).Container.ContainerID = r.Container.ContainerID ∧
    (writeResult r srv id).Container.Name = r.Container.Name ∧
    (writeResult r srv id).Image = r.Image ∧
    (writeResult r srv id).IsContainer = r.IsContainer ∧
    (writeResult r srv id).IsImage = r.IsImage ∧
    identityKey (writeResult r srv id) = identityKey r ∧
    ownUUID (writeResult r srv id) = id ∧
    (r.IsContainer = true →
      (writeResult r srv id).ServerUUID = (mapGetN srv.UUIDs r.ServerName).getD "") := by
  unfold writeResult identityKey ownUUID ScanResult.IsContainer ScanResult.IsImage
  split <;> simp_all

theorem ensureResult_shape (gen : Nat → String) (env : Env) (r : ScanResult) :
    (ensureResult gen env r).2.ServerName = r.ServerName ∧
    (ensureResult gen env r).2.Container.ContainerID = r.Container.ContainerID ∧
    (ensureResult gen env r).2.Container.Name = r.Container.Name ∧
    (ensureResult gen env r).2.Image = r.Image ∧
    (ensureResult gen env r).2.IsContainer = r.IsContainer ∧
    (ensureResult gen env r).2.IsImage = r.IsImage ∧
    identityKey (ensureResult gen env r).2 = identityKey r := by
  obtain ⟨-, -, ⟨srv, -, e⟩, -, -⟩ := ensureResult_spec gen env r
  rw [e]
  have := writeResult_shape r srv
    (keyStage gen r (hostStage gen env.calls r
      ((storedUUIDs env.Conf r.ServerName).getD []))).2.2
  exact ⟨this.1, this.2.1, this.2.2.1, this.2.2.2.1, this.2.2.2.2.1, this.2.2.2.2.2.1,
    this.2.2.2.2.2.2.1⟩

theorem ensureResult_preserve (gen : Nat → String) (env : Env) (r : ScanResult)
    (sn k v : String) (h : lookupUUID env.Conf sn k = some v) (hv : validUUID v = true) :
    lookupUUID (ensureResult gen env r).1.Conf sn k = some v := by
  obtain ⟨e1, -, -, fr, -⟩ := ensureResult_spec gen env r
  by_cases hs : sn = r.ServerName
  · subst hs
    rw [lookupUUID_eq, e1]
    rw [lookupUUID_eq] at h
    exact keyStage_preserve gen r _ k v (hostStage_preserve gen env.calls r _ k v h hv) hv
  · rw [lookupUUID_other env.Conf _ r.ServerName fr sn k hs]
    exact h

theorem ensureResult_calls (gen : Nat → String) (env : Env) (r : ScanResult) :
    env.calls ≤ (ensureResult gen env r).1.calls ∧
    (ensureResult gen env r).1.calls ≤ env.calls + 2 := by
  obtain ⟨-, e2, -, -, -⟩ := ensureResult_spec gen env r
  rw [e2]
  have h1 := hostStage_calls gen env.calls r ((storedUUIDs env.Conf r.ServerName).getD [])
  have h2 := keyStage_calls gen r
    (hostStage gen env.calls r ((storedUUIDs env.Conf r.ServerName).getD []))
  omega

theorem ensureResult_settled (gen : Nat → String) (hgen : ∀ n, validUUID (gen n) = true)
    (env : Env) (r : ScanResult) :
    Settled (ensureResult gen env r).1.Conf (ensureResult gen env r).2 := by
  obtain ⟨e1, -, ⟨srv, es, er⟩, -, -⟩ := ensureResult_spec gen env r
  obtain ⟨s1, -, -, -, s5, s6, s7⟩ := ensureResult_shape gen env r
  have ws := writeResult_shape r srv
    (keyStage gen r (hostStage gen env.calls r
      ((storedUUIDs env.Conf r.ServerName).getD []))).2.2
  have hostok : (r.IsContainer || r.IsImage) = true →
      ∃ h, lookupUUID (ensureResult gen env r).1.Conf r.ServerName r.ServerName = some h ∧
        validUUID h = true := by
    intro hn
    obtain ⟨h0, eh, hv⟩ := hostStage_host gen env.calls r
      ((storedUUIDs env.Conf r.ServerName).getD []) hn (hgen _)
    exact ⟨h0, by rw [lookupUUID_eq, e1]; exact keyStage_preserve gen r _ _ _ eh hv, hv⟩
  unfold Settled
  rw [s1, s5, s6, s7]
  refine ⟨⟨(keyStage gen r (hostStage gen env.calls r
      ((storedUUIDs env.Conf r.ServerName).getD []))).2.2, ?_, ?_, ?_⟩, hostok, ?_⟩
  · rw [lookupUUID_eq, e1]
    exact keyStage_own gen r _
  · exact keyStage_valid gen r _ (hgen _)
  · rw [er]; exact ws.2.2.2.2.2.2.2.1
  · intro hc
    obtain ⟨h0, eh, -⟩ := hostok (by simp [hc])
    rw [eh, er, ws.2.2.2.2.2.2.2.2 hc, es]
    rw [lookupUUID_eq, e1] at eh
    simp only [Option.getD_some] at eh
    simp only [mapGetN, eh, Option.getD_some]

theorem Settled_mono (c1 c2 : Config) (r : ScanResult)
    (h : ∀ sn k v, lookupUUID c1 sn k = some v → validUUID v = true →
      lookupUUID c2 sn k = some v)
    (hs : Settled c1 r) : Settled c2 r := by
  obtain ⟨⟨id, a1, a2, a3⟩, b, c⟩ := hs
  refine ⟨⟨id, h _ _ _ a1 a2, a2, a3⟩, ?_, ?_⟩
  · intro hn
    obtain ⟨h0, e, hv⟩ := b hn
    exact ⟨h0, h _ _ _ e hv, hv⟩
  · intro hc
    obtain ⟨h0, e, hv⟩ := b (by simp [hc])
    have := c hc
    rw [e] at this
    rw [← this]
    exact h _ _ _ e hv

theorem ensureResult_idle (gen : Nat → String) (env : Env) (r : ScanResult)
    (hs : Settled env.Conf r) : ensureResult gen env r = (env, r) := by
  obtain ⟨⟨id, a1, a2, a3⟩, b, c⟩ := hs
  obtain ⟨h0, c0, f0⟩ := enterIter_ok env r
  -- the entry is stored with a map
  cases hst : storedUUIDs env.Conf r.ServerName with
  | none => simp [lookupUUID, hst, mapGetN] at a1
  | some m =>
    rw [hst] at h0
    simp only [Option.getD_some] at h0
    have hb : (r.IsContainer || r.IsImage) = true →
        ∃ h, mapGet m r.ServerName = some h ∧ validUUID h = true := by
      intro hn
      obtain ⟨h1, e, hv⟩ := b hn
      rw [lookupUUID_eq, hst] at e
      exact ⟨h1, e, hv⟩
    have e1 : (if r.IsContainer then ensureHost gen r (enterIter env r)
        else if r.IsImage then ensureHost gen r (enterIter env r)
        else enterIter env r) = enterIter env r := by
      by_cases hn : (r.IsContainer || r.IsImage) = true
      · have := (ensureHost_ok gen env r (enterIter env r) m h0 hn).2.2.2 (hb hn)
        rw [this]; simp
      · have hc : r.IsContainer = false := by
          cases hh : r.IsContainer <;> simp_all
        have hi : r.IsImage = false := by
          cases hh : r.IsImage <;> simp_all
        simp [hc, hi]
    have a1' : mapGet m (identityKey r) = some id := by
      rw [lookupUUID_eq, hst] at a1; exact a1
    have hv : regexpMatchString reUUID id = true := a2
    unfold ensureResult
    simp only [e1, h0.1, mapGetN, a1', hv, if_true, f0]
    have hw : writeResult r (enterIter env r).server id = r := by
      unfold writeResult
      by_cases hc : r.IsContainer = true
      · have h3 := c hc
        rw [lookupUUID_eq, hst] at h3
        simp only [Option.getD_some] at h3
        have h4 : r.Container.UUID = id := by simpa [ownUUID, hc] using a3
        simp only [hc, if_true, h0.1, mapGetN, h3, Option.getD_some, h4.symm]
      · have h4 : r.ServerUUID = id := by simpa [ownUUID, hc] using a3
        simp only [hc, if_false, h4.symm, Bool.false_eq_true]
    rw [hw, c0]

theorem ensureLoop_preserve (gen : Nat → String) (rs : List ScanResult) (env : Env)
    (sn k v : String) (h : lookupUUID env.Conf sn k = some v) (hv : validUUID v = true) :
    lookupUUID (ensureLoop gen env rs).1.Conf sn k = some v := by
  induction rs generalizing env with
  | nil => exact h
  | cons r rest ih =>
    simp only [ensureLoop]
    exact ih _ (ensureResult_preserve gen env r sn k v h hv)

theorem ensureLoop_settled (gen : Nat → String) (hgen : ∀ n, validUUID (gen n) = true)
    (rs : List ScanResult) (env : Env) :
    ∀ r ∈ (ensureLoop gen env rs).2, Settled (ensureLoop gen env rs).1.Conf r := by
  induction rs generalizing env with
  | nil => intro r hr; simp [ensureLoop] at hr
  | cons r0 rest ih =>
    intro r hr
    simp only [ensureLoop, List.mem_cons] at hr ⊢
    rcases hr with e | hr
    · subst e
      exact Settled_mono _ _ _
        (fun sn k v h hv => ensureLoop_preserve gen rest _ sn k v h hv)
        (ensureResult_settled gen hgen env r0)
    · exact ih _ r hr

theorem ensureLoop_idle (gen : Nat → String) (rs : List ScanResult) (env : Env)
    (h : ∀ r ∈ rs, Settled env.Conf r) : ensureLoop gen env rs = (env, rs) := by
  induction rs with
  | nil => rfl
  | cons r rest ih =>
    simp only [ensureLoop]
    rw [ensureResult_idle gen env r (h r (by simp))]
    simp only []
    rw [ih (fun x hx => h x (by simp [hx]))]


/-! ## The format check -/

theorem hexClass_eq (c : Char) : hexClass c = isLowerHexDigit c := by
  unfold hexClass isLowerHexDigit Char.isDigit
  congr 1

theorem takeClass_eq (p : Char → Bool) (n : Nat) (cs : List Char) :
    takeClass p n cs =
      if n ≤ cs.length ∧ (cs.take n).all p = true then some (cs.drop n) else none := by
  induction n generalizing cs with
  | zero => simp [takeClass]
  | succ k ih =>
    cases cs with
    | nil => simp [takeClass]
    | cons c rest =>
      simp only [takeClass, ih, List.length_cons, Nat.add_le_add_iff_right, List.take_succ_cons,
        List.all_cons, Bool.and_eq_true, List.drop_succ_cons]
      by_cases hp : p c = true
      · simp [hp]
      · simp [hp]

theorem matchHere_cons (pc : Piece) (re : List Piece) (cs : List Char) :
    matchHere (pc :: re) cs =
      (decide (pc.times ≤ cs.length) && (cs.take pc.times).all pc.accepts &&
        matchHere re (cs.drop pc.times)) := by
  simp only [matchHere, takeClass_eq]
  by_cases h1 : pc.times ≤ cs.length
  · by_cases h2 : (cs.take pc.times).all pc.accepts = true
    · simp [h1, h2]
    · simp [h1, h2]
  · simp [h1]

theorem matchHere_nil (cs : List Char) : matchHere [] cs = true := by
  unfold matchHere; rfl

theorem take_one_hyphen (l : List Char) :
    (decide (1 ≤ l.length) && (l.take 1).all hyphen) = decide (l.take 1 = ['-']) := by
  cases l with
  | nil => simp
  | cons c rest => simp [hyphen]

theorem matchHere_reUUID_length (cs : List Char) (h : matchHere reUUID cs = true) :
    36 ≤ cs.length := by
  unfold reUUID at h
  simp only [matchHere_cons, matchHere_nil, Bool.and_eq_true, decide_eq_true_eq, List.length_drop,
    List.drop_drop] at h
  omega

theorem matchHere_reUUID_eq (cs : List Char) (h : cs.length = 36) :
    matchHere reUUID cs = hasUUIDShape isLowerHexDigit cs := by
  have hx : hexClass = isLowerHexDigit := funext hexClass_eq
  unfold reUUID hasUUIDShape slice
  simp only [matchHere_cons, matchHere_nil, List.drop_drop, ← take_one_hyphen, List.length_drop, h, hx,
    List.drop_zero]
  simp [Bool.and_assoc]


/-! ## The sort -/

theorem charsLess_iff (l₁ l₂ : List Char) :
    charsLess l₁ l₂ = true ↔ List.Lex (· < ·) l₁ l₂ := by
  induction l₁ generalizing l₂ with
  | nil =>
    cases l₂ with
    | nil => simp [charsLess, List.Lex.not_nil_right]
    | cons b bs => simp [charsLess, List.Lex.nil]
  | cons a as ih =>
    cases l₂ with
    | nil => simp [charsLess, List.Lex.not_nil_right]
    | cons b bs =>
      simp only [charsLess]
      by_cases hab : a < b
      · simp only [hab, if_true, true_iff]
        exact List.Lex.rel hab
      · simp only [hab, if_false]
        by_cases e : a = b
        · subst e
          simp only [if_true, ih]
          exact ⟨List.Lex.cons, fun h => by
            cases h with
            | cons h' => exact h'
            | rel h' => exact absurd h' hab⟩
        · simp only [e, if_false, Bool.false_eq_true, false_iff]
          intro h
          cases h with
          | cons _ => exact e rfl
          | rel h' => exact hab h'

theorem stringLess_iff (a b : String) : stringLess a b = true ↔ a < b := by
  unfold stringLess
  rw [charsLess_iff, String.lt_iff_toList_lt]
  rfl

theorem stringLess_false_iff (a b : String) : stringLess a b = false ↔ b ≤ a := by
  rw [← not_lt, ← stringLess_iff]
  simp

theorem notAfter_iff (a b : ScanResult) :
    notAfter a b ↔ a.ServerName < b.ServerName ∨
      (a.ServerName = b.ServerName ∧ a.Container.ContainerID ≤ b.Container.ContainerID) := by
  unfold notAfter lessResults
  by_cases h : b.ServerName = a.ServerName
  · simp only [h, if_true, stringLess_false_iff, lt_irrefl, true_and, false_or]
  · have h' : ¬ a.ServerName = b.ServerName := fun e => h e.symm
    simp only [h, h', if_false, stringLess_false_iff, false_and, or_false]
    exact ⟨fun hle => lt_of_le_of_ne hle h', le_of_lt⟩

theorem notAfter_trans (a b c : ScanResult) (h1 : notAfter a b) (h2 : notAfter b c) :
    notAfter a c := by
  rw [notAfter_iff] at *
  rcases h1 with h1 | ⟨e1, l1⟩
  · rcases h2 with h2 | ⟨e2, _⟩
    · exact Or.inl (lt_trans h1 h2)
    · exact Or.inl (e2 ▸ h1)
  · rcases h2 with h2 | ⟨e2, l2⟩
    · exact Or.inl (e1 ▸ h2)
    · exact Or.inr ⟨e1.trans e2, le_trans l1 l2⟩

theorem notAfter_total (a b : ScanResult) : notAfter a b ∨ notAfter b a := by
  rw [notAfter_iff, notAfter_iff]
  rcases lt_trichotomy a.ServerName b.ServerName with h | h | h
  · exact Or.inl (Or.inl h)
  · rcases le_total a.Container.ContainerID b.Container.ContainerID with l | l
    · exact Or.inl (Or.inr ⟨h, l⟩)
    · exact Or.inr (Or.inr ⟨h.symm, l⟩)
  · exact Or.inr (Or.inl h)

theorem notAfter_antisymm_key (a b : ScanResult) (h1 : notAfter a b) (h2 : notAfter b a) :
    sortKey a = sortKey b := by
  rw [notAfter_iff] at *
  unfold sortKey
  rcases h1 with h1 | ⟨e1, l1⟩
  · rcases h2 with h2 | ⟨e2, _⟩
    · exact absurd h1 (lt_asymm h2)
    · rw [e2] at h1; exact absurd h1 (lt_irrefl _)
  · rcases h2 with h2 | ⟨_, l2⟩
    · rw [e1] at h2; exact absurd h2 (lt_irrefl _)
    · rw [e1, le_antisymm l1 l2]

theorem empty_le (s : String) : "" ≤ s := by
  rw [String.le_iff_toList_le]
  exact List.nil_le

theorem sortSlice_isOutput (input : List ScanResult) :
    IsSortSliceOutput input (sortSlice input) := by
  haveI : IsTrans ScanResult (fun a b => lessResults b a = false) :=
    ⟨fun a b c => notAfter_trans a b c⟩
  haveI : IsTotal ScanResult (fun a b => lessResults b a = false) :=
    ⟨fun a b => notAfter_total a b⟩
  refine ⟨List.perm_insertionSort _ input, ?_⟩
  have := List.sorted_insertionSort (fun a b => lessResults b a = false) input
  exact List.Pairwise.chain' this

theorem output_pairwise (input output : List ScanResult)
    (h : IsSortSliceOutput input output) : List.Pairwise notAfter output := by
  haveI : IsTrans ScanResult notAfter := ⟨fun a b c => notAfter_trans a b c⟩
  exact List.chain'_iff_pairwise.mp h.2

theorem output_unique (input o1 o2 : List ScanResult)
    (hk : (input.map sortKey).Nodup)
    (h1 : IsSortSliceOutput input o1) (h2 : IsSortSliceOutput input o2) : o1 = o2 := by
  -- on a batch with distinct keys the order is antisymmetric
  let R : ScanResult → ScanResult → Prop :=
    fun a b => notAfter a b ∧ (sortKey a = sortKey b → a = b)
  haveI : IsAntisymm ScanResult R :=
    ⟨fun a b hab hba => hab.2 (notAfter_antisymm_key a b hab.1 hba.1)⟩
  have key : ∀ o, IsSortSliceOutput input o → List.Sorted R o := by
    intro o ho
    have hp := output_pairwise input o ho
    have hn : (o.map sortKey).Nodup := (ho.1.map sortKey).nodup_iff.mpr hk
    have hn' : List.Pairwise (fun a b => sortKey a ≠ sortKey b) o :=
      List.pairwise_map.mp hn
    exact (hp.and hn').imp (fun hab => ⟨hab.1, fun e => absurd e hab.2⟩)
  exact List.eq_of_perm_of_sorted (h1.1.trans h2.1.symm) (key o1 h1) (key o2 h2)


/-! ## Consequences for one result -/

theorem matchAnywhere_of_matchHere (re : List Piece) (cs : List Char)
    (h : matchHere re cs = true) : matchAnywhere re cs = true := by
  cases cs with
  | nil => exact h
  | cons c rest => simp [matchAnywhere, h]

theorem matchAnywhere_short (cs : List Char) (hl : cs.length ≤ 36)
    (h : matchAnywhere reUUID cs = true) : matchHere reUUID cs = true := by
  induction cs with
  | nil => exact h
  | cons c rest ih =>
    simp only [matchAnywhere, Bool.or_eq_true] at h
    rcases h with h | h
    · exact h
    · have hr : rest.length ≤ 36 := by simp at hl; omega
      have := matchHere_reUUID_length rest (ih hr h)
      simp at hl
      omega

theorem hasUUIDShape_length (digit : Char → Bool) (cs : List Char)
    (h : hasUUIDShape digit cs = true) : cs.length = 36 := by
  unfold hasUUIDShape at h
  simp only [Bool.and_eq_true, decide_eq_true_eq] at h
  exact h.1.1.1.1.1.1.1.1.1

theorem isCanonical_valid (s : String) (h : isCanonical s = true) : validUUID s = true := by
  unfold isCanonical at h
  unfold validUUID regexpMatchString
  apply matchAnywhere_of_matchHere
  rw [matchHere_reUUID_eq _ (hasUUIDShape_length _ _ h)]
  exact h

theorem hostStage_key (gen : Nat → String) (calls : Nat) (r : ScanResult)
    (m : GoMap String) :
    mapGet (hostStage gen calls r m).1 (identityKey r) = mapGet m (identityKey r) := by
  by_cases hn : (r.IsContainer || r.IsImage) = true
  · have hk := identityKey_ne r hn
    unfold hostStage
    simp only [hn, if_true]
    split
    · split <;> simp [mapGet_mapSet, hk]
    · split
      · rfl
      · split <;> simp [mapGet_mapSet, hk]
  · unfold hostStage
    simp [hn]

theorem hostStage_calls_eq (gen : Nat → String) (calls : Nat) (r : ScanResult)
    (m : GoMap String) :
    (hostStage gen calls r m).2 =
      if (r.IsContainer || r.IsImage) = true ∧
          ¬ (∃ h, mapGet m r.ServerName = some h ∧ validUUID h = true)
      then calls + 1 else calls := by
  unfold hostStage
  by_cases hn : (r.IsContainer || r.IsImage) = true
  · simp only [hn, if_true, true_and]
    cases hl : mapGet m r.ServerName with
    | none => simp
    | some h0 =>
      by_cases hv : validUUID h0 = true
      · simp [hv]
      · simp [hv]
  · simp [hn]

theorem ensureResult_existing (gen : Nat → String) (env : Env) (r : ScanResult) (v : String)
    (hl : lookupUUID env.Conf r.ServerName (identityKey r) = some v)
    (hv : validUUID v = true) :
    ownUUID (ensureResult gen env r).2 = v ∧
    lookupUUID (ensureResult gen env r).1.Conf r.ServerName (identityKey r) = some v ∧
    (ensureResult gen env r).1.calls =
      if (r.IsContainer || r.IsImage) = true ∧
          ¬ (∃ h, lookupUUID env.Conf r.ServerName r.ServerName = some h ∧ validUUID h = true)
      then env.calls + 1 else env.calls := by
  obtain ⟨-, e2, ⟨srv, -, er⟩, -, -⟩ := ensureResult_spec gen env r
  have hk : mapGet (hostStage gen env.calls r
      ((storedUUIDs env.Conf r.ServerName).getD [])).1 (identityKey r) = some v := by
    rw [hostStage_key, ← lookupUUID_eq]; exact hl
  have hks := keyStage_existing gen r _ v hk hv
  refine ⟨?_, ensureResult_preserve gen env r _ _ v hl hv, ?_⟩
  · rw [er, (writeResult_shape r srv _).2.2.2.2.2.2.2.1, hks]
  · rw [e2, hks]
    simp only [hostStage_calls_eq, lookupUUID_eq]

theorem ensureResult_fresh (gen : Nat → String) (env : Env) (r : ScanResult)
    (hl : ∀ v, lookupUUID env.Conf r.ServerName (identityKey r) = some v →
      validUUID v = false) :
    env.calls < (ensureResult gen env r).1.calls ∧
    lookupUUID (ensureResult gen env r).1.Conf r.ServerName (identityKey r)
      = some (gen ((ensureResult gen env r).1.calls - 1)) ∧
    ownUUID (ensureResult gen env r).2 = gen ((ensureResult gen env r).1.calls - 1) := by
  obtain ⟨e1, e2, ⟨srv, -, er⟩, -, -⟩ := ensureResult_spec gen env r
  have hk : ∀ v, mapGet (hostStage gen env.calls r
      ((storedUUIDs env.Conf r.ServerName).getD [])).1 (identityKey r) = some v →
      validUUID v = false := by
    intro v h
    rw [hostStage_key, ← lookupUUID_eq] at h
    exact hl v h
  have hks := keyStage_fresh gen r _ hk
  have hc := hostStage_calls gen env.calls r ((storedUUIDs env.Conf r.ServerName).getD [])
  have hcalls : (ensureResult gen env r).1.calls = (hostStage gen env.calls r
      ((storedUUIDs env.Conf r.ServerName).getD [])).2 + 1 := by rw [e2, hks]
  refine ⟨by omega, ?_, ?_⟩
  · rw [lookupUUID_eq, e1, hcalls, hks]
    simp [mapGet_mapSet]
  · rw [er, (writeResult_shape r srv _).2.2.2.2.2.2.2.1, hcalls, hks]
    simp

theorem ensureLoop_existing (gen : Nat → String) (rs : List ScanResult) (env : Env)
    (p : ScanResult × ScanResult) (v : String)
    (hp : p ∈ List.zip rs (ensureLoop gen env rs).2)
    (hl : lookupUUID env.Conf p.1.ServerName (identityKey p.1) = some v)
    (hv : validUUID v = true) :
    lookupUUID (ensureLoop gen env rs).1.Conf p.1.ServerName (identityKey p.1) = some v ∧
    ownUUID p.2 = v := by
  refine ⟨ensureLoop_preserve gen rs env _ _ v hl hv, ?_⟩
  induction rs generalizing env with
  | nil => simp [ensureLoop] at hp
  | cons r0 rest ih =>
    simp only [ensureLoop, List.zip_cons_cons, List.mem_cons] at hp
    rcases hp with e | hp
    · subst e
      exact (ensureResult_existing gen env r0 v hl hv).1
    · exact ih _ hp (ensureResult_preserve gen env r0 _ _ v hl hv)

theorem getOrCreateServerUUID_empty (gen : Nat → String) (calls : Nat) (r : ScanResult)
    (server : ServerInfo) (hg : gen calls ≠ "") :
    (getOrCreateServerUUID gen calls r server).1 = "" ↔
      ∃ id, mapGetN server.UUIDs r.ServerName = some id ∧ validUUID id = true := by
  unfold getOrCreateServerUUID validUUID
  cases hl : mapGetN server.UUIDs r.ServerName with
  | none => simp [hg]
  | some id =>
    by_cases hv : regexpMatchString reUUID id = true
    · simp [hv]
    · simp [hv, hg]


/-! ## The claims -/

theorem sampleGen_canonical : ∀ n, isCanonical (sampleGen n) = true := by
  intro n
  match n with
  | 0 => decide
  | 1 => decide
  | 2 => decide
  | k + 3 => show isCanonical uuidD = true; decide

theorem canonical_gen_valid (gen : Nat → String) (hgen : ∀ n, isCanonical (gen n) = true) :
    ∀ n, validUUID (gen n) = true := fun n => isCanonical_valid _ (hgen n)

/-- C1 (failing input): the configuration stores `zz01234567-89ab-cdef-0123-456789abcdef`
for the host `a`; the format check, having no anchor, accepts it, and the loop writes it
onto the host result as `ServerUUID`, although it is not 32 hex digits grouped
8-4-4-4-12. -/
theorem C1_padded_identifier_kept :
    (ensureLoop sampleGen ⟨paddedConfig, 0⟩ [hostResult "a"]).2
      = [{ hostResult "a" with ServerUUID := "zz01234567-89ab-cdef-0123-456789abcdef" }] ∧
    validUUID "zz01234567-89ab-cdef-0123-456789abcdef" = true ∧
    isCanonicalAnyCase "zz01234567-89ab-cdef-0123-456789abcdef" = false := by
  decide

/-- C2: under a generator of canonical identifiers, after the loop the identifier carried
by every result (`Container.UUID` for a container result, `ServerUUID` for a host or
image result) is the value stored in the configuration at
`Servers[ServerName].UUIDs[identity key]`. -/
theorem C2_identifier_in_result_and_config (gen : Nat → String)
    (hgen : ∀ n, isCanonical (gen n) = true) (env : Env) (rs : List ScanResult)
    (r : ScanResult) (hr : r ∈ (ensureLoop gen env rs).2) :
    (r.IsContainer = true →
      lookupUUID (ensureLoop gen env rs).1.Conf r.ServerName (identityKey r)
        = some r.Container.UUID) ∧
    (r.IsContainer = false →
      lookupUUID (ensureLoop gen env rs).1.Conf r.ServerName (identityKey r)
        = some r.ServerUUID) := by
  obtain ⟨⟨id, a1, -, a3⟩, -, -⟩ :=
    ensureLoop_settled gen (canonical_gen_valid gen hgen) rs env r hr
  unfold ownUUID at a3
  constructor
  · intro hc
    rw [a1, ← a3]; simp [hc]
  · intro hc
    rw [a1, ← a3]; simp [hc]

/-- C2 (witness): on the sample batch and an empty configuration, the container `web` of
the server `a` carries the identifier stored under `web@a`. -/
theorem C2_witness :
    (∀ n, isCanonical (sampleGen n) = true) ∧
    { containerResult "a" "c1" "web" with
        ServerUUID := uuidA, Container := ⟨"c1", "web", uuidB⟩ }
      ∈ (ensureLoop sampleGen ⟨emptyConfig, 0⟩ sampleBatch).2 ∧
    lookupUUID (ensureLoop sampleGen ⟨emptyConfig, 0⟩ sampleBatch).1.Conf "a" "web@a"
      = some uuidB :=
  ⟨sampleGen_canonical, by decide,
    (C2_identifier_in_result_and_config sampleGen sampleGen_canonical ⟨emptyConfig, 0⟩
      sampleBatch
      { containerResult "a" "c1" "web" with
          ServerUUID := uuidA, Container := ⟨"c1", "web", uuidB⟩ }
      (by decide)).1 (by decide)⟩


/-- C3: when the configuration maps the identity key of a result of the batch, in the
entry of its server, to an identifier that passes the format check, then after the loop
the configuration still maps that key to the same identifier and the result carries
exactly that identifier; and in whatever state the step of that result runs with the key
so mapped, it calls the generator only for a missing or invalid host identifier of a
container or image result, never for the key of the result. -/
theorem C3_valid_identifier_kept (gen : Nat → String) (env : Env) (rs : List ScanResult)
    (p : ScanResult × ScanResult) (v : String)
    (hp : p ∈ List.zip rs (ensureLoop gen env rs).2)
    (hl : lookupUUID env.Conf p.1.ServerName (identityKey p.1) = some v)
    (hv : validUUID v = true) :
    lookupUUID (ensureLoop gen env rs).1.Conf p.1.ServerName (identityKey p.1) = some v ∧
    ownUUID p.2 = v ∧
    ∀ e : Env, lookupUUID e.Conf p.1.ServerName (identityKey p.1) = some v →
      ownUUID (ensureResult gen e p.1).2 = v ∧
      lookupUUID (ensureResult gen e p.1).1.Conf p.1.ServerName (identityKey p.1) = some v ∧
      (ensureResult gen e p.1).1.calls =
        if (p.1.IsContainer || p.1.IsImage) = true ∧
            ¬ (∃ h, lookupUUID e.Conf p.1.ServerName p.1.ServerName = some h ∧
                validUUID h = true)
        then e.calls + 1 else e.calls := by
  obtain ⟨h1, h2⟩ := ensureLoop_existing gen rs env p v hp hl hv
  exact ⟨h1, h2, fun e he => ensureResult_existing gen e p.1 v he hv⟩

/-- C3 (witness): the host `a` keeps the valid identifier stored for it. -/
theorem C3_witness :
    (hostResult "a", { hostResult "a" with ServerUUID := uuidC })
      ∈ List.zip [hostResult "a"] (ensureLoop sampleGen ⟨storedConfig, 0⟩ [hostResult "a"]).2 ∧
    lookupUUID storedConfig "a" "a" = some uuidC ∧ validUUID uuidC = true ∧
    lookupUUID (ensureLoop sampleGen ⟨storedConfig, 0⟩ [hostResult "a"]).1.Conf "a" "a"
      = some uuidC :=
  ⟨by decide, by decide, by decide,
    (C3_valid_identifier_kept sampleGen ⟨storedConfig, 0⟩ [hostResult "a"]
      (hostResult "a", { hostResult "a" with ServerUUID := uuidC }) uuidC
      (by decide) (by decide) (by decide)).1⟩

/-- C4: when the configuration maps the identity key of a result to a value that fails
the format check, the step of the result returns, calls the generator, stores the
identifier returned by the last call of the step under that key in place of the old
value, and writes that identifier onto the result; the new identifier differs from the
old value whenever it passes the format check. -/
theorem C4_invalid_identifier_replaced (gen : Nat → String) (env : Env) (r : ScanResult)
    (v : String) (hl : lookupUUID env.Conf r.ServerName (identityKey r) = some v)
    (hv : validUUID v = false) :
    env.calls < (ensureResult gen env r).1.calls ∧
    lookupUUID (ensureResult gen env r).1.Conf r.ServerName (identityKey r)
      = some (gen ((ensureResult gen env r).1.calls - 1)) ∧
    ownUUID (ensureResult gen env r).2 = gen ((ensureResult gen env r).1.calls - 1) ∧
    (validUUID (gen ((ensureResult gen env r).1.calls - 1)) = true →
      gen ((ensureResult gen env r).1.calls - 1) ≠ v) := by
  have h := ensureResult_fresh gen env r (fun w hw => by
    rw [hl] at hw
    cases hw
    exact hv)
  refine ⟨h.1, h.2.1, h.2.2, ?_⟩
  intro hg e
  rw [e, hv] at hg
  cases hg

/-- C4 (witness): the invalid value stored under `web@a` is replaced by the identifier
of the first generator call. -/
theorem C4_witness :
    lookupUUID storedConfig "a" "web@a" = some "not-an-identifier" ∧
    validUUID "not-an-identifier" = false ∧
    lookupUUID (ensureResult sampleGen ⟨storedConfig, 0⟩
      (containerResult "a" "c1" "web")).1.Conf "a" "web@a" = some uuidA :=
  ⟨by decide, by decide,
    (C4_invalid_identifier_replaced sampleGen ⟨storedConfig, 0⟩
      (containerResult "a" "c1" "web") "not-an-identifier" (by decide) (by decide)).2.1⟩

/-- C5: under a generator of canonical identifiers, running the loop a second time on
the configuration and the results left by a first run calls the generator zero times
(the number of calls is unchanged), leaves the configuration, hence every `UUIDs` map,
unchanged, and leaves every result, hence every `ServerUUID` and `Container.UUID`,
unchanged. -/
theorem C5_assignment_idempotent (gen : Nat → String)
    (hgen : ∀ n, isCanonical (gen n) = true) (env : Env) (rs : List ScanResult) :
    (ensureLoop gen (ensureLoop gen env rs).1 (ensureLoop gen env rs).2).1.calls
      = (ensureLoop gen env rs).1.calls ∧
    (ensureLoop gen (ensureLoop gen env rs).1 (ensureLoop gen env rs).2).1.Conf
      = (ensureLoop gen env rs).1.Conf ∧
    (ensureLoop gen (ensureLoop gen env rs).1 (ensureLoop gen env rs).2).2
      = (ensureLoop gen env rs).2 := by
  have h := ensureLoop_idle gen (ensureLoop gen env rs).2 (ensureLoop gen env rs).1
    (ensureLoop_settled gen (canonical_gen_valid gen hgen) rs env)
  rw [h]
  exact ⟨rfl, rfl, rfl⟩

/-- C5 (witness): on the sample batch a second run ends with the three generator calls
of the first run. -/
theorem C5_witness :
    (∀ n, isCanonical (sampleGen n) = true) ∧
    (ensureLoop sampleGen (ensureLoop sampleGen ⟨storedConfig, 0⟩ sampleBatch).1
        (ensureLoop sampleGen ⟨storedConfig, 0⟩ sampleBatch).2).1.calls = 3 :=
  ⟨sampleGen_canonical,
    (C5_assignment_idempotent sampleGen sampleGen_canonical ⟨storedConfig, 0⟩
      sampleBatch).1.trans (by decide)⟩

/-- C6: the loop body looks up and stores the identifier of a result, in the entry of
its server, under the key `Container.Name + "@" + ServerName` for a container result,
`Image.Name + ":" + Image.Tag + "@" + ServerName` for an image result, and the bare
`ServerName` for a host result: the result receives the value stored under that key when
it passes the format check and the identifier of the last generator call of the step
otherwise, and afterwards the configuration holds the identifier of the result under
that key. -/
theorem C6_identity_key (gen : Nat → String) (env : Env) (r : ScanResult) :
    ownUUID (ensureResult gen env r).2 =
      (match lookupUUID env.Conf r.ServerName
          (if r.IsContainer then r.Container.Name ++ "@" ++ r.ServerName
            else if r.IsImage then r.Image.Name ++ ":" ++ r.Image.Tag ++ "@" ++ r.ServerName
            else r.ServerName) with
        | some v =>
            if validUUID v then v else gen ((ensureResult gen env r).1.calls - 1)
        | none => gen ((ensureResult gen env r).1.calls - 1)) ∧
    lookupUUID (ensureResult gen env r).1.Conf r.ServerName
        (if r.IsContainer then r.Container.Name ++ "@" ++ r.ServerName
          else if r.IsImage then r.Image.Name ++ ":" ++ r.Image.Tag ++ "@" ++ r.ServerName
          else r.ServerName)
      = some (ownUUID (ensureResult gen env r).2) := by
  show ownUUID (ensureResult gen env r).2 =
      (match lookupUUID env.Conf r.ServerName (identityKey r) with
        | some v =>
            if validUUID v then v else gen ((ensureResult gen env r).1.calls - 1)
        | none => gen ((ensureResult gen env r).1.calls - 1)) ∧
    lookupUUID (ensureResult gen env r).1.Conf r.ServerName (identityKey r)
      = some (ownUUID (ensureResult gen env r).2)
  cases hl : lookupUUID env.Conf r.ServerName (identityKey r) with
  | none =>
    have h := ensureResult_fresh gen env r (fun w hw => by rw [hl] at hw; cases hw)
    simp only []
    rw [h.2.1, h.2.2]
    exact ⟨rfl, rfl⟩
  | some v =>
    by_cases hv : validUUID v = true
    · have h := ensureResult_existing gen env r v hl hv
      simp only [hv, if_true]
      rw [h.2.1, h.1]
      exact ⟨rfl, rfl⟩
    · have hv' : validUUID v = false := by simpa using hv
      have h := ensureResult_fresh gen env r (fun w hw => by
        rw [hl] at hw; cases hw; exact hv')
      simp only [hv', Bool.false_eq_true, if_false]
      rw [h.2.1, h.2.2]
      exact ⟨rfl, rfl⟩


/-- C7: under a generator of canonical identifiers, after the loop every container
result carries as `Container.UUID` the identifier stored under the key
`Container.Name + "@" + ServerName` and as `ServerUUID` the identifier stored under the
bare `ServerName`, both in the `UUIDs` map of the entry of its server. -/
theorem C7_container_identifiers (gen : Nat → String)
    (hgen : ∀ n, isCanonical (gen n) = true) (env : Env) (rs : List ScanResult)
    (r : ScanResult) (hr : r ∈ (ensureLoop gen env rs).2) (hc : r.IsContainer = true) :
    mapGetN (storedUUIDs (ensureLoop gen env rs).1.Conf r.ServerName)
        (r.Container.Name ++ "@" ++ r.ServerName) = some r.Container.UUID ∧
    mapGetN (storedUUIDs (ensureLoop gen env rs).1.Conf r.ServerName) r.ServerName
      = some r.ServerUUID := by
  obtain ⟨⟨id, a1, -, a3⟩, -, c⟩ :=
    ensureLoop_settled gen (canonical_gen_valid gen hgen) rs env r hr
  refine ⟨?_, c hc⟩
  have hk : identityKey r = r.Container.Name ++ "@" ++ r.ServerName := by
    unfold identityKey; simp [hc]
  have ho : ownUUID r = r.Container.UUID := by
    unfold ownUUID; simp [hc]
  rw [← hk, ← ho, a3]
  exact a1

/-- C7 (witness): on the sample batch the container `web` carries as `ServerUUID` the
identifier stored under `a`. -/
theorem C7_witness :
    (∀ n, isCanonical (sampleGen n) = true) ∧
    { containerResult "a" "c1" "web" with
        ServerUUID := uuidA, Container := ⟨"c1", "web", uuidB⟩ }
      ∈ (ensureLoop sampleGen ⟨emptyConfig, 0⟩ sampleBatch).2 ∧
    mapGetN (storedUUIDs (ensureLoop sampleGen ⟨emptyConfig, 0⟩ sampleBatch).1.Conf "a") "a"
      = some uuidA :=
  ⟨sampleGen_canonical, by decide,
    (C7_container_identifiers sampleGen sampleGen_canonical ⟨emptyConfig, 0⟩ sampleBatch
      { containerResult "a" "c1" "web" with
          ServerUUID := uuidA, Container := ⟨"c1", "web", uuidB⟩ }
      (by decide) (by decide)).2⟩

/-- C8: under a generator of canonical identifiers, after the loop the entry of the
server of every container or image result holds under the bare `ServerName` an
identifier that passes the format check, whatever the batch and whatever was stored
before; it is the identifier stored before when that one passed the format check; and
`getOrCreateServerUUID` returns the empty string exactly when the stored host identifier
is present and passes the format check. -/
theorem C8_host_identifier_ensured (gen : Nat → String)
    (hgen : ∀ n, isCanonical (gen n) = true) (env : Env) (rs : List ScanResult)
    (r : ScanResult) (hr : r ∈ (ensureLoop gen env rs).2)
    (hn : (r.IsContainer || r.IsImage) = true) :
    (∃ h, lookupUUID (ensureLoop gen env rs).1.Conf r.ServerName r.ServerName = some h ∧
      validUUID h = true ∧
      ∀ h0, lookupUUID env.Conf r.ServerName r.ServerName = some h0 →
        validUUID h0 = true → h = h0) ∧
    ∀ (calls : Nat) (server : ServerInfo),
      (getOrCreateServerUUID gen calls r server).1 = "" ↔
        ∃ id, mapGetN server.UUIDs r.ServerName = some id ∧ validUUID id = true := by
  have hval := canonical_gen_valid gen hgen
  obtain ⟨-, b, -⟩ := ensureLoop_settled gen hval rs env r hr
  obtain ⟨h, e, hv⟩ := b hn
  refine ⟨⟨h, e, hv, ?_⟩, ?_⟩
  · intro h0 e0 hv0
    have := ensureLoop_preserve gen rs env _ _ h0 e0 hv0
    rw [e] at this
    cases this
    rfl
  · intro calls server
    exact getOrCreateServerUUID_empty gen calls r server
      (validUUID_ne_empty _ (hval calls))

/-- C8 (witness): on the sample batch, which has no host result for the server `b`, the
entry of `b` holds a valid host identifier after the loop. -/
theorem C8_witness :
    (∀ n, isCanonical (sampleGen n) = true) ∧
    { imageResult "b" "alpine" "3" with ServerUUID := uuidD }
      ∈ (ensureLoop sampleGen ⟨emptyConfig, 0⟩ sampleBatch).2 ∧
    (∃ h, lookupUUID (ensureLoop sampleGen ⟨emptyConfig, 0⟩ sampleBatch).1.Conf "b" "b"
        = some h ∧ validUUID h = true) :=
  ⟨sampleGen_canonical, by decide,
    (C8_host_identifier_ensured sampleGen sampleGen_canonical ⟨emptyConfig, 0⟩ sampleBatch
      { imageResult "b" "alpine" "3" with ServerUUID := uuidD }
      (by decide) (by decide)).1.imp (fun _ hh => ⟨hh.1, hh.2.1⟩)⟩

/-- C9 (counterexample): an upper-case canonical identifier is 32 hex digits grouped
8-4-4-4-12 and the format check rejects it; a canonical identifier with one more
character in front is not of that form and the format check accepts it. -/
theorem C9_counterexample :
    (isCanonicalAnyCase "01234567-89AB-CDEF-0123-456789ABCDEF" = true ∧
      validUUID "01234567-89AB-CDEF-0123-456789ABCDEF" = false) ∧
    (isCanonicalAnyCase "x01234567-89ab-cdef-0123-456789abcdef" = false ∧
      validUUID "x01234567-89ab-cdef-0123-456789abcdef" = true) := by
  decide

/-- C9 (amended): on a string of at most 36 characters the format check accepts exactly
the strings that are, as a whole, 8-4-4-4-12 hyphen-separated lower-case hex digits
(`0` to `9`, `a` to `f`). -/
theorem C9_format_check (s : String) (h : s.length ≤ 36) :
    validUUID s = true ↔ isCanonical s = true := by
  constructor
  · intro hv
    unfold validUUID regexpMatchString at hv
    have hm := matchAnywhere_short s.toList h hv
    have hlen : s.toList.length = 36 := by
      have := matchHere_reUUID_length _ hm
      have h' : s.toList.length ≤ 36 := h
      omega
    unfold isCanonical
    rw [← matchHere_reUUID_eq _ hlen]
    exact hm
  · exact isCanonical_valid s

/-- C9 (witness): the canonical identifier `uuidA` has 36 characters and is accepted. -/
theorem C9_witness :
    uuidA.length ≤ 36 ∧ (validUUID uuidA = true ↔ isCanonical uuidA = true) :=
  ⟨by decide, C9_format_check uuidA (by decide)⟩


theorem lessResults_iff_key (a b : ScanResult) :
    (lessResults a b = true ∨ lessResults b a = true) ↔ sortKey a ≠ sortKey b := by
  constructor
  · intro h e
    have hs : a.ServerName = b.ServerName := congrArg Prod.fst e
    have hc : a.Container.ContainerID = b.Container.ContainerID := congrArg Prod.snd e
    unfold lessResults at h
    simp only [hs, hc, if_true, or_self, stringLess_iff] at h
    exact lt_irrefl _ h
  · intro h
    by_contra hn
    simp only [not_or, Bool.not_eq_true] at hn
    exact h (notAfter_antisymm_key a b hn.2 hn.1)

/-- C10 (counterexample): two distinct image results of the same server have the same
`ServerName` and the same (empty) `Container.ContainerID`; the comparator orders neither
before the other, and both orders of the pair are outcomes of the sort. -/
theorem C10_counterexample :
    imageResult "a" "x" "1" ≠ imageResult "a" "y" "1" ∧
    lessResults (imageResult "a" "x" "1") (imageResult "a" "y" "1") = false ∧
    lessResults (imageResult "a" "y" "1") (imageResult "a" "x" "1") = false ∧
    IsSortSliceOutput [imageResult "a" "x" "1", imageResult "a" "y" "1"]
      [imageResult "a" "x" "1", imageResult "a" "y" "1"] ∧
    IsSortSliceOutput [imageResult "a" "x" "1", imageResult "a" "y" "1"]
      [imageResult "a" "y" "1", imageResult "a" "x" "1"] := by
  refine ⟨by decide, by decide, by decide, ⟨List.Perm.refl _, ?_⟩, ⟨List.Perm.swap _ _ _, ?_⟩⟩
  · simp only [List.chain'_cons, List.chain'_singleton, and_true]
    show lessResults _ _ = false
    decide
  · simp only [List.chain'_cons, List.chain'_singleton, and_true]
    show lessResults _ _ = false
    decide

/-- C10 (amended): every outcome of the sort is a permutation of the batch in which
`ServerName` is non-decreasing and, among results with equal `ServerName`,
`Container.ContainerID` is non-decreasing with the empty id first; the sort has an
outcome; two results are strictly ordered by the comparator exactly when they differ in
`ServerName` or in `Container.ContainerID`; and when no two results of the batch agree
on both, the outcome is the only one. -/
theorem C10_sort_order (input output : List ScanResult)
    (h : IsSortSliceOutput input output) :
    output.Perm input ∧
    List.Pairwise (fun a b => a.ServerName ≤ b.ServerName) output ∧
    List.Pairwise (fun a b => a.ServerName = b.ServerName →
      a.Container.ContainerID ≤ b.Container.ContainerID ∧
      (b.Container.ContainerID = "" → a.Container.ContainerID = "")) output ∧
    IsSortSliceOutput input (sortSlice input) ∧
    (∀ a b, (lessResults a b = true ∨ lessResults b a = true) ↔ sortKey a ≠ sortKey b) ∧
    ((input.map sortKey).Nodup →
      ∀ other, IsSortSliceOutput input other → other = output) := by
  have hp := output_pairwise input output h
  refine ⟨h.1, ?_, ?_, sortSlice_isOutput input, lessResults_iff_key, ?_⟩
  · refine hp.imp ?_
    intro a b hab
    rcases (notAfter_iff a b).mp hab with hlt | ⟨e, _⟩
    · exact le_of_lt hlt
    · exact le_of_eq e
  · refine hp.imp ?_
    intro a b hab e
    rcases (notAfter_iff a b).mp hab with hlt | ⟨_, hle⟩
    · rw [e] at hlt; exact absurd hlt (lt_irrefl _)
    · refine ⟨hle, fun hb => ?_⟩
      rw [hb] at hle
      exact le_antisymm hle (empty_le _)
  · intro hk other ho
    exact output_unique input other output hk ho h

/-- C10 (witness): the batch `b`, `a`, `a/c2`, `a/c1` has the single outcome `a`,
`a/c1`, `a/c2`, `b`. -/
theorem C10_witness :
    IsSortSliceOutput exampleBatch (sortSlice exampleBatch) ∧
    sortSlice exampleBatch = exampleSorted ∧
    ∀ other, IsSortSliceOutput exampleBatch other → other = sortSlice exampleBatch :=
  ⟨sortSlice_isOutput exampleBatch, by decide,
    (C10_sort_order exampleBatch (sortSlice exampleBatch)
      (sortSlice_isOutput exampleBatch)).2.2.2.2.2 (by decide)⟩

/-! ## `cleanForTOMLEncoding` field by field -/

theorem foldl_cleanOptionalKey (kvs : List (String × String)) (s : ServerInfo) :
    kvs.foldl cleanOptionalKey s = { s with Optional := kvs.foldl stepOptional s.Optional } := by
  induction kvs generalizing s with
  | nil => rfl
  | cons kv rest ih =>
    simp only [List.foldl]
    rw [ih]
    unfold cleanOptionalKey stepOptional
    cases h : mapGetN s.Optional kv.1 with
    | none => rfl
    | some vv =>
      by_cases e : kv.2 = vv
      · simp only [e, if_true]
      · simp only [e, if_false]

theorem cleanForTOMLEncoding_eq (e d : ServerInfo) :
    cleanForTOMLEncoding e d =
      { User := if d.User = e.User then "" else e.User,
        Host := if d.Host = e.Host then "" else e.Host,
        Port := if d.Port = e.Port then "" else e.Port,
        KeyPath := if d.KeyPath = e.KeyPath then "" else e.KeyPath,
        ScanMode := if e.ScanMode = d.ScanMode then none else e.ScanMode,
        Type_ := if d.Type_ = e.Type_ then "" else e.Type_,
        CpeNames := if e.CpeNames = d.CpeNames then none else e.CpeNames,
        OwaspDCXMLPath := if d.OwaspDCXMLPath = e.OwaspDCXMLPath then "" else e.OwaspDCXMLPath,
        IgnoreCves := if e.IgnoreCves = d.IgnoreCves then none else e.IgnoreCves,
        Enablerepo := if e.Enablerepo = d.Enablerepo then none else e.Enablerepo,
        Optional := cleanedOptional e d,
        UUIDs := e.UUIDs,
        Others := e.Others } := by
  have h1 : ∀ x, clearOptional d x = { x with Optional :=
      (if deepEqualMap x.Optional d.Optional = true then none else x.Optional) } := fun x => by
    unfold clearOptional; split <;> rfl
  have h2 : ∀ x, clearUser d x = { x with User := if d.User = x.User then "" else x.User } :=
    fun x => by unfold clearUser; split <;> rfl
  have h3 : ∀ x, clearHost d x = { x with Host := if d.Host = x.Host then "" else x.Host } :=
    fun x => by unfold clearHost; split <;> rfl
  have h4 : ∀ x, clearPort d x = { x with Port := if d.Port = x.Port then "" else x.Port } :=
    fun x => by unfold clearPort; split <;> rfl
  have h5 : ∀ x, clearKeyPath d x = { x with KeyPath :=
      if d.KeyPath = x.KeyPath then "" else x.KeyPath } := fun x => by
    unfold clearKeyPath; split <;> rfl
  have h6 : ∀ x, clearScanMode d x = { x with ScanMode :=
      if x.ScanMode = d.ScanMode then none else x.ScanMode } := fun x => by
    unfold clearScanMode deepEqualSlice
    by_cases c : x.ScanMode = d.ScanMode <;> simp [c]
  have h7 : ∀ x, clearType d x = { x with Type_ := if d.Type_ = x.Type_ then "" else x.Type_ } :=
    fun x => by unfold clearType; split <;> rfl
  have h8 : ∀ x, clearCpeNames d x = { x with CpeNames :=
      if x.CpeNames = d.CpeNames then none else x.CpeNames } := fun x => by
    unfold clearCpeNames deepEqualSlice
    by_cases c : x.CpeNames = d.CpeNames <;> simp [c]
  have h9 : ∀ x, clearOwaspDCXMLPath d x = { x with OwaspDCXMLPath :=
      if d.OwaspDCXMLPath = x.OwaspDCXMLPath then "" else x.OwaspDCXMLPath } := fun x => by
    unfold clearOwaspDCXMLPath; split <;> rfl
  have h10 : ∀ x, clearIgnoreCves d x = { x with IgnoreCves :=
      if x.IgnoreCves = d.IgnoreCves then none else x.IgnoreCves } := fun x => by
    unfold clearIgnoreCves deepEqualSlice
    by_cases c : x.IgnoreCves = d.IgnoreCves <;> simp [c]
  have h11 : ∀ x, clearEnablerepo d x = { x with Enablerepo :=
      if x.Enablerepo = d.Enablerepo then none else x.Enablerepo } := fun x => by
    unfold clearEnablerepo deepEqualSlice
    by_cases c : x.Enablerepo = d.Enablerepo <;> simp [c]
  simp only [cleanForTOMLEncoding, cleanOptionalKeys, cleanedOptional, foldl_cleanOptionalKey,
    h11, h10, h9, h8, h7, h6, h5, h4, h3, h2, h1]

/-! ## The loop over `def.Optional` -/

theorem mapGet_some_mem {α : Type} (m : GoMap α) (k : String) (v : α)
    (h : mapGet m k = some v) : (k, v) ∈ m := by
  induction m with
  | nil => simp [mapGet] at h
  | cons p rest ih =>
    obtain ⟨a, b⟩ := p
    simp only [mapGet] at h
    by_cases e : a = k
    · simp only [e, if_true, Option.some.injEq] at h
      subst e; subst h
      exact List.mem_cons_self _ _
    · simp only [e, if_false] at h
      exact List.mem_cons_of_mem _ (ih h)

theorem mapGet_of_mem_wf {α : Type} (m : GoMap α) (k : String) (v : α)
    (hwf : mapWF m) (h : (k, v) ∈ m) : mapGet m k = some v := by
  induction m with
  | nil => simp at h
  | cons p rest ih =>
    obtain ⟨a, b⟩ := p
    unfold mapWF at hwf
    simp only [List.map_cons, List.nodup_cons, List.mem_map, Prod.exists, exists_and_right,
      exists_eq_right, not_exists] at hwf
    simp only [List.mem_cons, Prod.mk.injEq] at h
    simp only [mapGet]
    rcases h with ⟨e1, e2⟩ | h
    · simp [e1, e2]
    · have hne : ¬ a = k := by
        intro e
        subst e
        exact hwf.1 v h
      simp only [hne, if_false]
      exact ih hwf.2 h

theorem stepOptional_get (o : Option (GoMap String)) (kv : String × String) (k : String) :
    mapGetN (stepOptional o kv) k =
      if k = kv.1 ∧ mapGetN o kv.1 = some kv.2 then none else mapGetN o k := by
  unfold stepOptional
  cases h : mapGetN o kv.1 with
  | none => simp
  | some vv =>
    by_cases e : kv.2 = vv
    · subst e
      simp only [if_true, and_true]
      cases o with
      | none => simp [mapGetN] at h
      | some m =>
        simp only [mapDeleteN, Option.map_some', mapGetN, mapGet_mapDelete]
    · have e' : ¬ vv = kv.2 := fun x => e x.symm
      simp [e, e']

theorem stepOptional_isSome (o : Option (GoMap String)) (kv : String × String) :
    (stepOptional o kv).isSome = o.isSome := by
  unfold stepOptional
  split
  · split
    · cases o <;> rfl
    · rfl
  · rfl

theorem foldl_stepOptional_isSome (kvs : List (String × String)) (o : Option (GoMap String)) :
    (kvs.foldl stepOptional o).isSome = o.isSome := by
  induction kvs generalizing o with
  | nil => rfl
  | cons kv rest ih => simp only [List.foldl]; rw [ih, stepOptional_isSome]

theorem foldl_stepOptional_from (kvs : List (String × String)) (o : Option (GoMap String))
    (k v : String) (h : mapGetN (kvs.foldl stepOptional o) k = some v) :
    mapGetN o k = some v := by
  induction kvs generalizing o with
  | nil => exact h
  | cons kv rest ih =>
    simp only [List.foldl] at h
    have := ih _ h
    rw [stepOptional_get] at this
    split at this
    · cases this
    · exact this

theorem foldl_stepOptional_clean (kvs : List (String × String)) (o : Option (GoMap String))
    (p : String × String) (hp : p ∈ kvs) :
    mapGetN (kvs.foldl stepOptional o) p.1 ≠ some p.2 := by
  induction kvs generalizing o with
  | nil => simp at hp
  | cons kv rest ih =>
    simp only [List.foldl]
    simp only [List.mem_cons] at hp
    rcases hp with e | hp
    · subst e
      intro h
      have := foldl_stepOptional_from rest _ _ _ h
      rw [stepOptional_get] at this
      split at this
      · cases this
      · rename_i hn
        exact hn ⟨rfl, this⟩
    · exact ih _ hp

theorem foldl_stepOptional_idle (kvs : List (String × String)) (o : Option (GoMap String))
    (h : ∀ p ∈ kvs, mapGetN o p.1 ≠ some p.2) : kvs.foldl stepOptional o = o := by
  induction kvs generalizing o with
  | nil => rfl
  | cons kv rest ih =>
    simp only [List.foldl]
    have h0 : stepOptional o kv = o := by
      unfold stepOptional
      cases hl : mapGetN o kv.1 with
      | none => rfl
      | some vv =>
        by_cases e : kv.2 = vv
        · subst e
          exact absurd hl (h kv (List.mem_cons_self _ _))
        · simp [e]
    rw [h0]
    exact ih o (fun p hp => h p (List.mem_cons_of_mem _ hp))

theorem foldl_stepOptional_get (kvs : List (String × String)) (hwf : mapWF kvs)
    (o : Option (GoMap String)) (k : String) :
    mapGetN (kvs.foldl stepOptional o) k =
      match mapGetN o k with
      | some v => if mapGet kvs k = some v then none else some v
      | none => none := by
  induction kvs generalizing o with
  | nil =>
    simp only [List.foldl, mapGet]
    cases mapGetN o k <;> simp
  | cons kv rest ih =>
    obtain ⟨k0, v0⟩ := kv
    unfold mapWF at hwf
    simp only [List.map_cons, List.nodup_cons] at hwf
    simp only [List.foldl]
    rw [ih hwf.2, stepOptional_get]
    simp only [mapGet]
    by_cases e : k = k0
    · subst e
      have hnone : mapGet rest k = none := by
        cases hl : mapGet rest k with
        | none => rfl
        | some w =>
          exact absurd (List.mem_map_of_mem Prod.fst (mapGet_some_mem rest k w hl)) hwf.1
      cases hl : mapGetN o k with
      | none => simp
      | some v =>
        by_cases ev : v0 = v
        · subst ev; simp
        · have ev' : ¬ v = v0 := fun x => ev x.symm
          simp [ev, ev', hnone]
    · have e' : ¬ k0 = k := fun x => e x.symm
      simp only [e, e', false_and, if_false]

/-! ## Claims on `cleanForTOMLEncoding` -/

theorem cleanedOptional_clean (e d : ServerInfo) (p : String × String)
    (hp : p ∈ d.Optional.getD []) : mapGetN (cleanedOptional e d) p.1 ≠ some p.2 :=
  foldl_stepOptional_clean _ _ p hp

theorem cleanedOptional_not_deepEqual (e d : ServerInfo)
    (h : deepEqualMap (cleanedOptional e d) d.Optional = true) : cleanedOptional e d = none := by
  cases hr : cleanedOptional e d with
  | none => rfl
  | some r =>
    exfalso
    rw [hr] at h
    cases hd : d.Optional with
    | none => rw [hd] at h; simp [deepEqualMap] at h
    | some dl =>
      rw [hd] at h
      simp only [deepEqualMap, Bool.and_eq_true, decide_eq_true_eq, List.all_eq_true] at h
      cases r with
      | nil =>
        have hdl : dl = [] := List.length_eq_zero.mp h.1.symm
        subst hdl
        unfold cleanedOptional at hr
        rw [hd] at hr
        simp only [Option.getD_some, List.foldl] at hr
        by_cases c : deepEqualMap e.Optional (some []) = true
        · simp [c] at hr
        · simp only [c, if_false, Bool.false_eq_true] at hr
          rw [hr] at c
          exact c (by decide)
      | cons p rest =>
        have h1 := h.2 p (List.mem_cons_self _ _)
        have h2 : mapGetN (cleanedOptional e d) p.1 = some p.2 := by
          rw [hr]; simp [mapGetN, mapGet]
        have hmem : (p.1, p.2) ∈ d.Optional.getD [] := by
          rw [hd]; exact mapGet_some_mem dl p.1 p.2 h1
        exact cleanedOptional_clean e d (p.1, p.2) hmem h2

theorem cleanedOptional_idem (s e d : ServerInfo) (hs : s.Optional = cleanedOptional e d) :
    cleanedOptional s d = cleanedOptional e d := by
  have h0 : (if deepEqualMap s.Optional d.Optional = true then none else s.Optional)
      = cleanedOptional e d := by
    rw [hs]
    by_cases c : deepEqualMap (cleanedOptional e d) d.Optional = true
    · simp only [c, if_true]
      exact (cleanedOptional_not_deepEqual e d c).symm
    · simp only [c, if_false, Bool.false_eq_true]
  show (d.Optional.getD []).foldl stepOptional
      (if deepEqualMap s.Optional d.Optional = true then none else s.Optional) = _
  rw [h0]
  exact foldl_stepOptional_idle _ _ (fun p hp => cleanedOptional_clean e d p hp)

theorem scalar_idem (x y : String) :
    (if y = (if y = x then "" else x) then "" else (if y = x then "" else x))
      = (if y = x then "" else x) := by
  by_cases h : y = x
  · simp [h]
  · simp [h]

theorem slice_idem (x y : Option (List String)) :
    (if (if x = y then none else x) = y then none else (if x = y then none else x))
      = (if x = y then none else x) := by
  by_cases h : x = y
  · simp [h]
  · simp [h]

/-- C11: `cleanForTOMLEncoding` is idempotent: cleaning a cleaned entry against the same
default returns the cleaned entry, equal on every field, the nil or empty state of the
lists and of `Optional` included. -/
theorem C11_clean_idempotent (e d : ServerInfo) :
    cleanForTOMLEncoding (cleanForTOMLEncoding e d) d = cleanForTOMLEncoding e d := by
  have ho : cleanedOptional (cleanForTOMLEncoding e d) d = cleanedOptional e d :=
    cleanedOptional_idem _ e d (by rw [cleanForTOMLEncoding_eq])
  rw [cleanForTOMLEncoding_eq (cleanForTOMLEncoding e d) d, ho]
  rw [cleanForTOMLEncoding_eq e d]
  simp only [scalar_idem, slice_idem]

/-- C13: for each of `User`, `Host`, `Port`, `KeyPath`, `Type` and `OwaspDCXMLPath`, the
field of `cleanForTOMLEncoding(e, d)` is the empty string when the fields of `e` and `d`
are equal and the field of `e` otherwise; with `root` as user of both, the user of the
result is empty. -/
theorem C13_scalar_fields (e d : ServerInfo) :
    (cleanForTOMLEncoding e d).User = (if e.User = d.User then "" else e.User) ∧
    (cleanForTOMLEncoding e d).Host = (if e.Host = d.Host then "" else e.Host) ∧
    (cleanForTOMLEncoding e d).Port = (if e.Port = d.Port then "" else e.Port) ∧
    (cleanForTOMLEncoding e d).KeyPath = (if e.KeyPath = d.KeyPath then "" else e.KeyPath) ∧
    (cleanForTOMLEncoding e d).Type_ = (if e.Type_ = d.Type_ then "" else e.Type_) ∧
    (cleanForTOMLEncoding e d).OwaspDCXMLPath
      = (if e.OwaspDCXMLPath = d.OwaspDCXMLPath then "" else e.OwaspDCXMLPath) ∧
    (cleanForTOMLEncoding rootEntry rootDefault).User = "" ∧
    (cleanForTOMLEncoding rootEntry rootDefault).Host = "192.0.2.1" := by
  rw [cleanForTOMLEncoding_eq e d]
  simp only [eq_comm (a := e.User), eq_comm (a := e.Host), eq_comm (a := e.Port),
    eq_comm (a := e.KeyPath), eq_comm (a := e.Type_), eq_comm (a := e.OwaspDCXMLPath),
    true_and]
  decide

theorem cleanForTOMLEncoding_Optional (e d : ServerInfo) :
    (cleanForTOMLEncoding e d).Optional = cleanedOptional e d := by
  rw [cleanForTOMLEncoding_eq]

theorem deepEqualMap_get (x y : Option (GoMap String)) (h : deepEqualMap x y = true)
    (k v : String) (hx : mapGetN x k = some v) : mapGetN y k = some v := by
  cases x with
  | none => simp [mapGetN] at hx
  | some a =>
    cases y with
    | none => simp [deepEqualMap] at h
    | some b =>
      simp only [deepEqualMap, Bool.and_eq_true, decide_eq_true_eq, List.all_eq_true] at h
      exact h.2 (k, v) (mapGet_some_mem a k v hx)

theorem cleanedOptional_get_ne (e d : ServerInfo) (hwf : mapWFN d.Optional)
    (hne : deepEqualMap e.Optional d.Optional = false) (k : String) :
    mapGetN (cleanedOptional e d) k =
      (match mapGetN e.Optional k with
        | some v => if mapGetN d.Optional k = some v then none else some v
        | none => none) ∧
    (cleanedOptional e d).isSome = e.Optional.isSome := by
  unfold cleanedOptional
  simp only [hne, Bool.false_eq_true, if_false]
  refine ⟨?_, foldl_stepOptional_isSome _ _⟩
  cases hd : d.Optional with
  | none =>
    simp only [Option.getD_none, List.foldl]
    cases mapGetN e.Optional k <;> simp [mapGetN]
  | some dl =>
    rw [hd] at hwf
    simp only [Option.getD_some, mapGetN]
    exact foldl_stepOptional_get dl hwf e.Optional k

/-- C14: when the keys of the default's `Optional` are pairwise distinct and the two
`Optional` maps are not deep-equal, the `Optional` map of `cleanForTOMLEncoding(e, d)`
holds under every key the value of `e.Optional` unless the default holds the same value
under that key, in which case the key is absent; no key is added or changed, and the
map is nil only when that of `e` is. -/
theorem C14_optional_per_key (e d : ServerInfo) (hwf : mapWFN d.Optional)
    (hne : deepEqualMap e.Optional d.Optional = false) (k : String) :
    mapGetN (cleanForTOMLEncoding e d).Optional k =
      (match mapGetN e.Optional k with
        | some v => if mapGetN d.Optional k = some v then none else some v
        | none => none) ∧
    (cleanForTOMLEncoding e d).Optional.isSome = e.Optional.isSome := by
  rw [cleanForTOMLEncoding_Optional]
  exact cleanedOptional_get_ne e d hwf hne k

/-- C14 (witness): with `{foo: 1, bar: 2}` as default and `{foo: 1, bar: 3}` as entry,
the key `foo` is removed and the cleaned map is `{bar: 3}`. -/
theorem C14_witness :
    mapWFN rootDefault.Optional ∧
    deepEqualMap rootEntry.Optional rootDefault.Optional = false ∧
    (cleanForTOMLEncoding rootEntry rootDefault).Optional = some [("bar", "3")] ∧
    mapGetN (cleanForTOMLEncoding rootEntry rootDefault).Optional "foo" = none :=
  ⟨by simp [mapWFN, mapWF, rootDefault, ServerInfo.zero], by decide, by decide,
    (C14_optional_per_key rootEntry rootDefault
      (by simp [mapWFN, mapWF, rootDefault, ServerInfo.zero]) (by decide) "foo").1⟩

/-- C15 (counterexample): the ignored CVEs and the enabled repositories of `rootEntry`
are those of `rootDefault` in another order, and `cleanForTOMLEncoding` clears neither
field. -/
theorem C15_counterexample :
    List.Perm ["CVE-1", "CVE-2"] ["CVE-2", "CVE-1"] ∧
    rootEntry.IgnoreCves = some ["CVE-1", "CVE-2"] ∧
    rootDefault.IgnoreCves = some ["CVE-2", "CVE-1"] ∧
    (cleanForTOMLEncoding rootEntry rootDefault).IgnoreCves = some ["CVE-1", "CVE-2"] ∧
    List.Perm ["updates", "base"] ["base", "updates"] ∧
    rootEntry.Enablerepo = some ["updates", "base"] ∧
    rootDefault.Enablerepo = some ["base", "updates"] ∧
    (cleanForTOMLEncoding rootEntry rootDefault).Enablerepo = some ["updates", "base"] :=
  ⟨List.Perm.swap _ _ _, by decide, by decide, by decide, List.Perm.swap _ _ _, by decide,
    by decide, by decide⟩

/-- C15 (amended): each of `ScanMode`, `CpeNames`, `IgnoreCves` and `Enablerepo` is
compared with the default's as an ordered sequence (a nil list differing from an empty
one): the field of `cleanForTOMLEncoding(e, d)` is nil when the two lists are equal
element for element in the same order, and the list of `e` otherwise. -/
theorem C15_list_fields (e d : ServerInfo) :
    (cleanForTOMLEncoding e d).ScanMode = (if e.ScanMode = d.ScanMode then none else e.ScanMode) ∧
    (cleanForTOMLEncoding e d).CpeNames = (if e.CpeNames = d.CpeNames then none else e.CpeNames) ∧
    (cleanForTOMLEncoding e d).IgnoreCves
      = (if e.IgnoreCves = d.IgnoreCves then none else e.IgnoreCves) ∧
    (cleanForTOMLEncoding e d).Enablerepo
      = (if e.Enablerepo = d.Enablerepo then none else e.Enablerepo) := by
  rw [cleanForTOMLEncoding_eq e d]
  exact ⟨rfl, rfl, rfl, rfl⟩

theorem mapGet_map_snd {α β : Type} (f : α → β) (m : GoMap α) (k : String) :
    mapGet (m.map (fun p => (p.1, f p.2))) k = (mapGet m k).map f := by
  induction m with
  | nil => rfl
  | cons p rest ih =>
    obtain ⟨a, b⟩ := p
    simp only [List.map_cons, mapGet]
    by_cases e : a = k
    · simp [e]
    · simp [e, ih]

theorem cleanServers_storedUUIDs (conf : Config) (sn : String) :
    storedUUIDs (cleanServers conf) sn = storedUUIDs conf sn := by
  unfold storedUUIDs cleanServers
  have h := mapGet_map_snd (fun s => cleanForTOMLEncoding s conf.Default) conf.Servers sn
  simp only at h ⊢
  rw [h]
  cases mapGet conf.Servers sn with
  | none => rfl
  | some s => simp [cleanForTOMLEncoding_UUIDs]

theorem ensureLoop_Default (gen : Nat → String) (rs : List ScanResult) (env : Env) :
    (ensureLoop gen env rs).1.Conf.Default = env.Conf.Default := by
  induction rs generalizing env with
  | nil => rfl
  | cons r rest ih =>
    simp only [ensureLoop]
    rw [ih, (ensureResult_spec gen env r).2.2.2.2]

/-- C20: `cleanForTOMLEncoding(e, d)` keeps the `UUIDs` map of `e` and the fields that
are not inheritable; when the two `Optional` maps are deep-equal, which they are when
they are one map object, the `Optional` of the result is nil, so that no key is deleted
from a map of the default; the loop of lines 121-124 keeps the `UUIDs` map of every
server and the default entry, and the identity-assignment loop keeps the default entry. -/
theorem C20_clean_frame (e d : ServerInfo) (conf : Config) (sn : String)
    (gen : Nat → String) (env : Env) (rs : List ScanResult) :
    (cleanForTOMLEncoding e d).UUIDs = e.UUIDs ∧
    (cleanForTOMLEncoding e d).Others = e.Others ∧
    (deepEqualMap e.Optional d.Optional = false ∨ (cleanForTOMLEncoding e d).Optional = none) ∧
    storedUUIDs (cleanServers conf) sn = storedUUIDs conf sn ∧
    (cleanServers conf).Default = conf.Default ∧
    (ensureLoop gen env rs).1.Conf.Default = env.Conf.Default := by
  refine ⟨cleanForTOMLEncoding_UUIDs e d, by rw [cleanForTOMLEncoding_eq], ?_,
    cleanServers_storedUUIDs conf sn, rfl, ensureLoop_Default gen rs env⟩
  by_cases c : deepEqualMap e.Optional d.Optional = true
  · right
    rw [cleanForTOMLEncoding_Optional]
    unfold cleanedOptional
    simp only [c, if_true]
    have := foldl_stepOptional_isSome (d.Optional.getD []) none
    cases h : (d.Optional.getD []).foldl stepOptional none with
    | none => rfl
    | some x => rw [h] at this; cases this
  · left
    simpa using c

/-! ## `Distinct` -/

theorem foldl_distinctStep (ss : List String) (m : GoMap Bool) (acc : List String)
    (hinv : ∀ x, mapGet m x = none ↔ x ∉ acc) :
    (ss.foldl distinctStep (m, acc)).2
      = acc ++ (firstOccurrences ss).filter (fun y => decide (y ∉ acc)) := by
  induction ss generalizing m acc with
  | nil => simp [firstOccurrences]
  | cons x xs ih =>
    simp only [List.foldl, firstOccurrences]
    cases hx : mapGet m x with
    | some b =>
      have hmem : x ∈ acc := by
        by_contra hn
        rw [(hinv x).mpr hn] at hx
        cases hx
      have hstep : distinctStep (m, acc) x = (m, acc) := by
        unfold distinctStep; simp only [hx]
      rw [hstep, ih m acc hinv]
      congr 1
      simp only [List.filter_cons, hmem, not_true_eq_false, decide_False, Bool.false_eq_true,
        if_false, List.filter_filter]
      apply List.filter_congr
      intro y _
      by_cases hy : y ∈ acc
      · simp [hy]
      · have : y ≠ x := fun e => hy (e ▸ hmem)
        simp [hy, this]
    | none =>
      have hmem : x ∉ acc := (hinv x).mp hx
      have hstep : distinctStep (m, acc) x = (mapSet m x true, acc ++ [x]) := by
        unfold distinctStep; simp only [hx]
      rw [hstep, ih (mapSet m x true) (acc ++ [x]) (by
        intro y
        rw [mapGet_mapSet]
        by_cases e : y = x
        · simp [e]
        · simp [e, hinv y])]
      simp only [List.filter_cons, hmem, not_false_eq_true, decide_True, if_true,
        List.append_assoc, List.singleton_append, List.filter_filter]
      congr 2
      apply List.filter_congr
      intro y _
      by_cases hy : y ∈ acc
      · simp [hy]
      · by_cases e : y = x
        · simp [e]
        · simp [hy, e]

theorem Distinct_eq (ss : List String) : Distinct ss = firstOccurrences ss := by
  unfold Distinct
  rw [foldl_distinctStep ss [] [] (by intro x; simp [mapGet])]
  simp

theorem mem_firstOccurrences (ss : List String) (x : String) :
    x ∈ firstOccurrences ss ↔ x ∈ ss := by
  induction ss with
  | nil => simp [firstOccurrences]
  | cons y ys ih =>
    simp only [firstOccurrences, List.mem_cons, List.mem_filter, ih, decide_eq_true_eq]
    by_cases e : x = y
    · simp [e]
    · simp [e]

theorem nodup_firstOccurrences (ss : List String) : (firstOccurrences ss).Nodup := by
  induction ss with
  | nil => simp [firstOccurrences]
  | cons y ys ih =>
    simp only [firstOccurrences, List.nodup_cons, List.mem_filter, decide_eq_true_eq]
    exact ⟨fun h => h.2 rfl, ih.filter _⟩

theorem firstOccurrences_of_nodup (l : List String) (h : l.Nodup) :
    firstOccurrences l = l := by
  induction l with
  | nil => rfl
  | cons y ys ih =>
    simp only [List.nodup_cons] at h
    simp only [firstOccurrences, ih h.2]
    congr 1
    apply List.filter_eq_self.mpr
    intro a ha
    simp only [decide_eq_true_eq]
    intro e
    exact h.1 (e ▸ ha)

/-- C18: `Distinct(ss)` lists the elements of `ss` in the order of their first
occurrence, each once: it has no element twice, it has exactly the elements of `ss`, and
`Distinct(Distinct(ss)) = Distinct(ss)`. -/
theorem C18_distinct (ss : List String) :
    Distinct ss = firstOccurrences ss ∧
    (Distinct ss).Nodup ∧
    (∀ x, x ∈ Distinct ss ↔ x ∈ ss) ∧
    List.Sublist (Distinct ss) ss ∧
    Distinct (Distinct ss) = Distinct ss ∧
    Distinct ["b", "a", "b", "c", "a"] = ["b", "a", "c"] := by
  refine ⟨Distinct_eq ss, ?_, ?_, ?_, ?_, by decide⟩
  · rw [Distinct_eq]; exact nodup_firstOccurrences ss
  · intro x; rw [Distinct_eq]; exact mem_firstOccurrences ss x
  · rw [Distinct_eq]
    induction ss with
    | nil => exact List.Sublist.refl _
    | cons y ys ih =>
      simp only [firstOccurrences]
      exact ((List.filter_sublist _).trans ih).cons₂ y
  · rw [Distinct_eq, Distinct_eq]
    exact firstOccurrences_of_nodup _ (nodup_firstOccurrences ss)

/-- C19 (counterexample): for an image result of the server `b` processed on an empty
configuration, the identifier stored under the host key `b` is the first generated one,
and the `ServerUUID` of the result is the second one, stored under `alpine:3@b`. -/
theorem C19_counterexample :
    (ensureLoop sampleGen ⟨emptyConfig, 0⟩ [imageResult "b" "alpine" "3"]).2
      = [{ imageResult "b" "alpine" "3" with ServerUUID := uuidB }] ∧
    lookupUUID (ensureLoop sampleGen ⟨emptyConfig, 0⟩ [imageResult "b" "alpine" "3"]).1.Conf
      "b" "b" = some uuidA ∧
    lookupUUID (ensureLoop sampleGen ⟨emptyConfig, 0⟩ [imageResult "b" "alpine" "3"]).1.Conf
      "b" "alpine:3@b" = some uuidB ∧
    uuidB ≠ uuidA := by
  decide

/-- C19 (amended): under a generator of canonical identifiers, after the loop every image
result carries as `ServerUUID` its own identifier, the one stored under the key
`Image.Name + ":" + Image.Tag + "@" + ServerName`, and the entry of its server holds
under the bare `ServerName` a host identifier that passes the format check. -/
theorem C19_image_identifiers (gen : Nat → String)
    (hgen : ∀ n, isCanonical (gen n) = true) (env : Env) (rs : List ScanResult)
    (r : ScanResult) (hr : r ∈ (ensureLoop gen env rs).2)
    (hc : r.IsContainer = false) (hi : r.IsImage = true) :
    lookupUUID (ensureLoop gen env rs).1.Conf r.ServerName
        (r.Image.Name ++ ":" ++ r.Image.Tag ++ "@" ++ r.ServerName) = some r.ServerUUID ∧
    ∃ h, lookupUUID (ensureLoop gen env rs).1.Conf r.ServerName r.ServerName = some h ∧
      validUUID h = true := by
  obtain ⟨⟨id, a1, -, a3⟩, b, -⟩ :=
    ensureLoop_settled gen (canonical_gen_valid gen hgen) rs env r hr
  refine ⟨?_, b (by simp [hi])⟩
  have hk : identityKey r = r.Image.Name ++ ":" ++ r.Image.Tag ++ "@" ++ r.ServerName := by
    unfold identityKey; simp [hc, hi]
  have ho : ownUUID r = r.ServerUUID := by
    unfold ownUUID; simp [hc]
  rw [← hk, ← ho, a3]
  exact a1

/-- C19 (witness): on the sample batch the image `alpine:3` of the server `b` carries the
identifier stored under `alpine:3@b`. -/
theorem C19_witness :
    (∀ n, isCanonical (sampleGen n) = true) ∧
    { imageResult "b" "alpine" "3" with ServerUUID := uuidD }
      ∈ (ensureLoop sampleGen ⟨emptyConfig, 0⟩ sampleBatch).2 ∧
    lookupUUID (ensureLoop sampleGen ⟨emptyConfig, 0⟩ sampleBatch).1.Conf "b" "alpine:3@b"
      = some uuidD :=
  ⟨sampleGen_canonical, by decide,
    (C19_image_identifiers sampleGen sampleGen_canonical ⟨emptyConfig, 0⟩ sampleBatch
      { imageResult "b" "alpine" "3" with ServerUUID := uuidD }
      (by decide) (by decide) (by decide)).1⟩

/-! ## The snapshot and the replacement of the file -/

/-- C16 (counterexample): when no integration block is configured, the snapshot still
holds the four external dictionaries `cveDict`, `ovalDict`, `gost` and `exploit`, whose
identifying field is empty. -/
theorem C16_counterexample :
    noIntegrations.CveDict.URL = "" ∧
    (snapshot emptyConfig noIntegrations).CveDict = some noIntegrations.CveDict ∧
    (snapshot emptyConfig noIntegrations).OvalDict = some noIntegrations.OvalDict ∧
    (snapshot emptyConfig noIntegrations).Gost = some noIntegrations.Gost ∧
    (snapshot emptyConfig noIntegrations).Exploit = some noIntegrations.Exploit ∧
    (snapshot emptyConfig noIntegrations).Email = none := by
  decide

/-- C16 (amended): in the snapshot each of `email`, `slack`, `stride`, `hipChat`,
`chatWork`, `aws`, `azure`, `saas`, `http` and `syslog` is absent when its primary
identifying field is empty (zero for the group id of `saas`) and is the block of the
configuration otherwise; `cveDict`, `ovalDict`, `gost` and `exploit` are always present;
the default entry and the entries of all servers are always included. -/
theorem C16_snapshot_blocks (conf : Config) (c : Integrations) :
    (snapshot conf c).Email = (if c.EMail.SMTPAddr = "" then none else some c.EMail) ∧
    (snapshot conf c).Slack = (if c.Slack.HookURL = "" then none else some c.Slack) ∧
    (snapshot conf c).Stride = (if c.Stride.HookURL = "" then none else some c.Stride) ∧
    (snapshot conf c).HipChat = (if c.HipChat.AuthToken = "" then none else some c.HipChat) ∧
    (snapshot conf c).ChatWork
      = (if c.ChatWork.APIToken = "" then none else some c.ChatWork) ∧
    (snapshot conf c).AWS = (if c.AWS.S3Bucket = "" then none else some c.AWS) ∧
    (snapshot conf c).Azure = (if c.Azure.AccountName = "" then none else some c.Azure) ∧
    (snapshot conf c).Saas = (if c.Saas.GroupID = 0 then none else some c.Saas) ∧
    (snapshot conf c).HTTP = (if c.HTTP.URL = "" then none else some c.HTTP) ∧
    (snapshot conf c).Syslog = (if c.Syslog.Host = "" then none else some c.Syslog) ∧
    (snapshot conf c).CveDict = some c.CveDict ∧
    (snapshot conf c).OvalDict = some c.OvalDict ∧
    (snapshot conf c).Gost = some c.Gost ∧
    (snapshot conf c).Exploit = some c.Exploit ∧
    (snapshot conf c).Default = conf.Default ∧
    (snapshot conf c).Servers = conf.Servers :=
  ⟨rfl, rfl, rfl, rfl, rfl, rfl, rfl, rfl, rfl, rfl, rfl, rfl, rfl, rfl, rfl, rfl⟩

theorem bak_ne (p : String) : p ≠ p ++ ".bak" := by
  intro e
  have h := congrArg String.length e
  simp only [String.length_append] at h
  have : (".bak" : String).length = 4 := by decide
  omega

theorem osRename_spec (faults : Faults) (fs renamed : FileSystem) (p : String)
    (h : osRename faults fs p (p ++ ".bak") = some renamed) :
    mapGet renamed (p ++ ".bak") = mapGet fs p ∧ (mapGet fs p).isSome = true ∧
    mapGet renamed p = none ∧
    ∀ q, q ≠ p → q ≠ p ++ ".bak" → mapGet renamed q = mapGet fs q := by
  unfold osRename at h
  by_cases hf : faults.rename = true
  · simp [hf] at h
  · simp only [hf, Bool.false_eq_true, if_false] at h
    cases hn : mapGet fs p with
    | none => rw [hn] at h; cases h
    | some node =>
      rw [hn] at h
      simp only [Option.some.injEq] at h
      subst h
      refine ⟨by simp [mapGet_mapSet], rfl, ?_, ?_⟩
      · simp [mapGet_mapSet, mapGet_mapDelete, bak_ne p]
      · intro q h1 h2
        simp [mapGet_mapSet, mapGet_mapDelete, h1, h2]

/-- C17: in `EnsureUUIDs`, when the lstat of the configuration path fails, or the
readlink of a symbolic link fails, or the rename of the resolved path to its `.bak` name
fails, the error of that step is returned and the file system is the one found; when the
encoder fails after the rename, its error is returned, nothing is written, the `.bak`
path holds what the resolved path held, the resolved path holds nothing and every other
path is as it was. -/
theorem C17_failure_writes_nothing (gen : Nat → String) (faults : Faults)
    (encode : Snapshot → Option String) (ints : Integrations) (fs : FileSystem) (env : Env)
    (configPath : String) (results : List ScanResult) :
    (osLstat faults fs configPath = none →
      (EnsureUUIDs gen faults encode ints fs env configPath results).err = some Failure.lstat ∧
      (EnsureUUIDs gen faults encode ints fs env configPath results).fs = fs) ∧
    (∀ target, osLstat faults fs configPath = some (Node.symlink target) →
      osReadlink faults fs configPath = none →
      (EnsureUUIDs gen faults encode ints fs env configPath results).err
        = some Failure.readlink ∧
      (EnsureUUIDs gen faults encode ints fs env configPath results).fs = fs) ∧
    (∀ realPath, resolvePath faults fs configPath = Except.ok realPath →
      osRename faults fs realPath (realPath ++ ".bak") = none →
      (EnsureUUIDs gen faults encode ints fs env configPath results).err
        = some Failure.rename ∧
      (EnsureUUIDs gen faults encode ints fs env configPath results).fs = fs) ∧
    (∀ realPath renamed, resolvePath faults fs configPath = Except.ok realPath →
      osRename faults fs realPath (realPath ++ ".bak") = some renamed →
      encode (snapshot (cleanServers (ensureLoop gen env (sortSlice results)).1.Conf) ints)
        = none →
      (EnsureUUIDs gen faults encode ints fs env configPath results).err
        = some Failure.encode ∧
      (EnsureUUIDs gen faults encode ints fs env configPath results).fs = renamed ∧
      mapGet renamed (realPath ++ ".bak") = mapGet fs realPath ∧
      (mapGet fs realPath).isSome = true ∧
      mapGet renamed realPath = none ∧
      ∀ q, q ≠ realPath → q ≠ realPath ++ ".bak" → mapGet renamed q = mapGet fs q) := by
  refine ⟨?_, ?_, ?_, ?_⟩
  · intro h
    have hr : resolvePath faults fs configPath = Except.error Failure.lstat := by
      unfold resolvePath; rw [h]
    simp only [EnsureUUIDs, writeConfig, hr, and_self]
  · intro target h1 h2
    have hr : resolvePath faults fs configPath = Except.error Failure.readlink := by
      unfold resolvePath; rw [h1]; simp only [h2]
    simp only [EnsureUUIDs, writeConfig, hr, and_self]
  · intro realPath hr h
    simp only [EnsureUUIDs, writeConfig, hr, h, and_self]
  · intro realPath renamed hr h he
    have hs := osRename_spec faults fs renamed realPath h
    simp only [EnsureUUIDs, writeConfig, hr, h, he, true_and]
    exact hs

/-- C17 (witness): with a rename that fails the file system is left as found, and with
an encoder that fails the old content of the target of the link is at `real.toml.bak`
and nothing is at `real.toml`. -/
theorem C17_witness :
    ((EnsureUUIDs sampleGen ⟨false, false, true, false⟩ failingEncoder noIntegrations
        sampleFiles ⟨emptyConfig, 0⟩ "config.toml" sampleBatch).err = some Failure.rename ∧
      (EnsureUUIDs sampleGen ⟨false, false, true, false⟩ failingEncoder noIntegrations
        sampleFiles ⟨emptyConfig, 0⟩ "config.toml" sampleBatch).fs = sampleFiles) ∧
    (EnsureUUIDs sampleGen noFaults failingEncoder noIntegrations linkedFiles
        ⟨emptyConfig, 0⟩ "config.toml" sampleBatch).err = some Failure.encode ∧
    (EnsureUUIDs sampleGen noFaults failingEncoder noIntegrations linkedFiles
        ⟨emptyConfig, 0⟩ "config.toml" sampleBatch).fs
      = [("real.toml.bak", Node.file "old content"),
         ("config.toml", Node.symlink "real.toml")] :=
  ⟨(C17_failure_writes_nothing sampleGen ⟨false, false, true, false⟩ failingEncoder
      noIntegrations sampleFiles ⟨emptyConfig, 0⟩ "config.toml" sampleBatch).2.2.1
      "config.toml" rfl (by decide),
    by decide, by decide⟩

/-! ## The round trip -/

theorem mapGet_append {α : Type} (a b : GoMap α) (k : String) :
    mapGet (a ++ b) k = match mapGet a k with
      | some v => some v
      | none => mapGet b k := by
  induction a with
  | nil => simp [mapGet]
  | cons p rest ih =>
    obtain ⟨x, y⟩ := p
    simp only [List.cons_append, mapGet]
    by_cases e : x = k
    · simp [e]
    · simp [e, ih]

theorem mapGet_filter_key {α : Type} (f : String → Bool) (m : GoMap α) (k : String) :
    mapGet (m.filter (fun p => f p.1)) k = if f k = true then mapGet m k else none := by
  induction m with
  | nil => simp [mapGet]
  | cons p rest ih =>
    obtain ⟨x, y⟩ := p
    by_cases hx : f x = true
    · simp only [List.filter_cons, hx, if_true, mapGet, ih]
      by_cases e : x = k
      · subst e; simp [hx]
      · simp [e]
    · simp only [List.filter_cons, hx, if_false, Bool.false_eq_true, mapGet, ih]
      by_cases e : x = k
      · subst e; simp [hx]
      · simp [e]

theorem fillOptional_get (c d : Option (GoMap String)) (k : String) :
    mapGetN (fillOptional c d) k = match mapGetN c k with
      | some v => some v
      | none => mapGetN d k := by
  cases c with
  | none => simp [fillOptional, mapGetN]
  | some m =>
    cases d with
    | none =>
      simp only [fillOptional, mapGetN]
      cases mapGet m k <;> rfl
    | some dm =>
      simp only [fillOptional, mapGetN, mapGet_append]
      have h := mapGet_filter_key (fun q => decide (mapGet m q = none)) dm k
      simp only at h
      rw [h]
      cases hm : mapGet m k with
      | none => simp
      | some v => simp

theorem fillOptional_isSome (c d : Option (GoMap String)) :
    (fillOptional c d).isSome = (c.isSome || d.isSome) := by
  cases c <;> cases d <;> rfl

theorem cleanedOptional_get (e d : ServerInfo) (hwf : mapWFN d.Optional) (k : String) :
    mapGetN (cleanedOptional e d) k =
      match mapGetN e.Optional k with
      | some v => if mapGetN d.Optional k = some v then none else some v
      | none => none := by
  by_cases c : deepEqualMap e.Optional d.Optional = true
  · have hn : cleanedOptional e d = none := by
      unfold cleanedOptional
      simp only [c, if_true]
      have := foldl_stepOptional_isSome (d.Optional.getD []) none
      cases h : (d.Optional.getD []).foldl stepOptional none with
      | none => rfl
      | some x => rw [h] at this; cases this
    rw [hn]
    cases hx : mapGetN e.Optional k with
    | none => rfl
    | some v =>
      have := deepEqualMap_get _ _ c k v hx
      simp only [this, if_true]
      rfl
  · have hne : deepEqualMap e.Optional d.Optional = false := by simpa using c
    exact (cleanedOptional_get_ne e d hwf hne k).1


theorem fillString_round (x y : String) (h : fillString x y = x) :
    fillString (if y = x then "" else x) y = x := by
  by_cases e : y = x
  · simp [e, fillString]
  · simp only [e, if_false]; exact h

theorem fillSlice_round (x y : Option (List String)) (h : fillSlice x y = x) :
    fillSlice (if x = y then none else x) y = x := by
  by_cases e : x = y
  · simp [e, fillSlice]
  · simp only [e, if_false]; exact h

theorem fillOptional_round (e d : ServerInfo) (hwf : mapWFN d.Optional)
    (h : sameMap (fillOptional e.Optional d.Optional) e.Optional) :
    sameMap (fillOptional (cleanedOptional e d) d.Optional) e.Optional := by
  obtain ⟨h1, h2⟩ := h
  rw [fillOptional_isSome] at h1
  constructor
  · rw [fillOptional_isSome]
    by_cases c : deepEqualMap e.Optional d.Optional = true
    · have hn : (cleanedOptional e d).isSome = false := by
        unfold cleanedOptional
        simp only [c, if_true]
        exact foldl_stepOptional_isSome _ none
      rw [hn]
      cases hx : e.Optional <;> cases hy : d.Optional <;> simp_all [deepEqualMap]
    · have hne : deepEqualMap e.Optional d.Optional = false := by simpa using c
      rw [(cleanedOptional_get_ne e d hwf hne "").2]
      exact h1
  · intro k
    have hk := h2 k
    rw [fillOptional_get] at hk ⊢
    rw [cleanedOptional_get e d hwf k]
    cases hx : mapGetN e.Optional k with
    | none =>
      rw [hx] at hk
      simpa using hk
    | some v =>
      by_cases hv : mapGetN d.Optional k = some v
      · simp [hv]
      · simp [hv]

/-- C12 (counterexample): the entry `blankEntry` has an empty user, the default has the
user `root`; cleaning leaves the user empty and filling from the default gives `root`,
not the user of the entry. -/
theorem C12_counterexample :
    blankEntry.User = "" ∧ rootDefault.User = "root" ∧
    (cleanForTOMLEncoding blankEntry rootDefault).User = "" ∧
    (expandEntry (cleanForTOMLEncoding blankEntry rootDefault) rootDefault).User = "root" ∧
    ¬ sameEntry (expandEntry (cleanForTOMLEncoding blankEntry rootDefault) rootDefault)
        blankEntry := by
  refine ⟨by decide, by decide, by decide, by decide, ?_⟩
  intro h
  exact absurd h.1 (by decide)

/-- C12 (amended): when the keys of the default's `Optional` are pairwise distinct and
the entry `e` is its own filling from the default `d` (no inheritable field of `e` is
empty where that of `d` is not, and every key of the default's `Optional` is a key of
that of `e`), filling `cleanForTOMLEncoding(e, d)` from `d` gives `e` back on every
field, `Optional` as a map. -/
theorem C12_round_trip (e d : ServerInfo) (hwf : mapWFN d.Optional)
    (hexp : sameEntry (expandEntry e d) e) :
    sameEntry (expandEntry (cleanForTOMLEncoding e d) d) e := by
  obtain ⟨a1, a2, a3, a4, a5, a6, a7, a8, a9, a10, a11, -, -⟩ := hexp
  rw [cleanForTOMLEncoding_eq e d]
  exact ⟨fillString_round _ _ a1, fillString_round _ _ a2, fillString_round _ _ a3,
    fillString_round _ _ a4, fillSlice_round _ _ a5, fillString_round _ _ a6,
    fillSlice_round _ _ a7, fillString_round _ _ a8, fillSlice_round _ _ a9,
    fillSlice_round _ _ a10, fillOptional_round e d hwf a11, rfl, rfl⟩

theorem mapWFN_rootDefault : mapWFN rootDefault.Optional := by
  simp [mapWFN, mapWF, rootDefault, ServerInfo.zero]

theorem sameMap_refl (a : Option (GoMap String)) : sameMap a a := ⟨rfl, fun _ => rfl⟩

/-- C12 (witness): the entry `loadedEntry` is its own filling from `rootDefault`, and
filling its cleaned entry gives back its user, its ignored CVEs and the value of `foo`. -/
theorem C12_witness :
    mapWFN rootDefault.Optional ∧
    expandEntry loadedEntry rootDefault = loadedEntry ∧
    (cleanForTOMLEncoding loadedEntry rootDefault).User = "" ∧
    (cleanForTOMLEncoding loadedEntry rootDefault).IgnoreCves = none ∧
    (cleanForTOMLEncoding loadedEntry rootDefault).Optional = some [("bar", "3")] ∧
    sameEntry (expandEntry (cleanForTOMLEncoding loadedEntry rootDefault) rootDefault)
      loadedEntry :=
  ⟨mapWFN_rootDefault, by decide, by decide, by decide, by decide,
    C12_round_trip loadedEntry rootDefault mapWFN_rootDefault
      (by
        have h : expandEntry loadedEntry rootDefault = loadedEntry := by decide
        rw [h]
        exact ⟨rfl, rfl, rfl, rfl, rfl, rfl, rfl, rfl, rfl, rfl, sameMap_refl _, rfl, rfl⟩)⟩


end Vuls
